import Mathlib

set_option maxRecDepth 100000
set_option maxHeartbeats 1000000

/-!
# Verification of the P2P synthetic-data generator (`Code/1_data_modelling.py`)

Shallow embedding of the generation-and-injection engine of the repository
`BTC_bank_assesement`.  The Python program draws all of its pseudo-randomness
from the process-wide `random` module stream (seeded once in `main`), except
for the identifier fields which come from `uuid.uuid4()` (backed by
`os.urandom`, i.e. a second, unseeded entropy source).

The embedding makes both randomness sources explicit:

* `Tape` (a list of naturals) stands for the seeded `random` stream; every
  primitive of the `random` module consumes values from the front of the tape
  in exactly the order the source draws them.  An exhausted tape (and every
  situation in which Python would raise, e.g. `choice` on an empty list,
  `randint` on an empty range, or a `KeyError`) is `none`.
* a second tape supplies the `uuid.uuid4()` draws.

Timestamps are exact integer seconds (Python `datetime` arithmetic on whole
seconds is exact); `iso`/`strptime` round-tripping of the fixed
`YYYY-MM-DD HH:MM:SS` format is serialization glue and is represented by
keeping the integer value in the record.  Python floats are modelled by
exact rationals (`PQ` below): `random.random()` is a rational in `[0, 1)`
with fixed resolution, which preserves every property used here
(non-negativity, strictly below 1).
-/

namespace P2PSim

/-- The seeded pseudo-random stream: the values still to be drawn. -/
abbrev Tape := List Nat

/-- Exact rational arithmetic used to model Python floats.  (Mathlib's `PQ`
does not reduce inside the kernel through its algebraic instances, which
would make concrete runs of the generators impossible to evaluate in
`decide`/`rfl` proofs, so the embedding carries unreduced fractions: an
integer numerator over a natural denominator that every operation below
keeps positive.)  Order, floor and the arithmetic agree with the exact
rational value. -/
structure PQ where
  num : Int
  den : Nat
deriving Repr, DecidableEq

instance (n : Nat) : OfNat PQ n := ⟨⟨Int.ofNat n, 1⟩⟩

instance : NatCast PQ := ⟨fun n => ⟨Int.ofNat n, 1⟩⟩

instance : Add PQ := ⟨fun x y => ⟨x.num * y.den + y.num * x.den, x.den * y.den⟩⟩

instance : Sub PQ := ⟨fun x y => ⟨x.num * y.den - y.num * x.den, x.den * y.den⟩⟩

instance : Mul PQ := ⟨fun x y => ⟨x.num * y.num, x.den * y.den⟩⟩

/-- Division.  The divisor is nonzero at every call site of the embedding;
the zero and negative cases only keep the denominator positive. -/
instance : Div PQ := ⟨fun x y =>
  if y.num = 0 then ⟨0, 1⟩
  else if y.num < 0 then ⟨-(x.num * y.den), x.den * (-y.num).toNat⟩
  else ⟨x.num * y.den, x.den * y.num.toNat⟩⟩

instance : LT PQ := ⟨fun x y => x.num * y.den < y.num * x.den⟩

instance : LE PQ := ⟨fun x y => x.num * y.den ≤ y.num * x.den⟩

instance (x y : PQ) : Decidable (x < y) := Int.decLt _ _

instance (x y : PQ) : Decidable (x ≤ y) := Int.decLe _ _

/-- Exact floor of the represented rational (`num.fdiv den` with a positive
denominator). -/
def PQ.floor (x : PQ) : Int := x.num.fdiv x.den

/-- `sum(...)` over a list of rationals (Python folds from 0 on the left). -/
def PQ.lsum (l : List PQ) : PQ := l.foldl (· + ·) 0

/-- `str.lower()` restricted to the generated ASCII strings. -/
def pyLower (s : String) : String := ⟨s.data.map Char.toLower⟩

/-- Resolution of the modelled `random.random()` draw. -/
def FLOAT_DENOM : Nat := 1000000

/-- `random.random()`: uniform in `[0, 1)`, modelled with resolution `10^-6`. -/
def randFloat (t : Tape) : Option (PQ × Tape) :=
  match t with
  | [] => none
  | v :: t => some (⟨Int.ofNat (v % FLOAT_DENOM), FLOAT_DENOM⟩, t)

/-- `random.randrange(n)`: uniform in `[0, n)`; `ValueError` when `n = 0`. -/
def randrange (n : Nat) (t : Tape) : Option (Nat × Tape) :=
  if n = 0 then none
  else
    match t with
    | [] => none
    | v :: t => some (v % n, t)

/-- `random.randint(a, b)`: uniform in `[a, b]`; `ValueError` when `b < a`. -/
def randint (a b : Nat) (t : Tape) : Option (Nat × Tape) :=
  if b < a then none
  else
    match t with
    | [] => none
    | v :: t => some (a + v % (b - a + 1), t)

/-- `random.choice(l)`: uniform element of `l`; `IndexError` on the empty list. -/
def pychoice (l : List α) (t : Tape) : Option (α × Tape) :=
  match l, t with
  | [], _ => none
  | _ :: _, [] => none
  | a :: as, v :: t =>
      some ((a :: as).get ⟨v % (a :: as).length, Nat.mod_lt _ (Nat.succ_pos _)⟩, t)

/-- Cumulative-weight pick used by `random.choices`: the first element whose
running weight sum strictly exceeds the draw `u` (Python's `bisect` on the
cumulative weights).  `none` when `u` is not below the total weight, which is
exactly the situation in which Python raises `IndexError` (all-zero weights). -/
def wpick : List (α × PQ) → PQ → Option α
  | [], _ => none
  | (a, w) :: rest, u => if u < w then some a else wpick rest (u - w)

/-- `random.choices(pop, weights=ws, k=1)[0]`: one weighted draw.  Python
raises `ValueError` when the lengths differ. -/
def pychoices (pop : List α) (ws : List PQ) (t : Tape) : Option (α × Tape) :=
  if pop.length ≠ ws.length then none
  else
    match randFloat t with
    | none => none
    | some (u, t') =>
      match wpick (pop.zip ws) (u * PQ.lsum ws) with
      | none => none
      | some a => some (a, t')

/-- `random.uniform(a, b)` = `a + random() * (b - a)`. -/
def pyuniform (a b : PQ) (t : Tape) : Option (PQ × Tape) :=
  match randFloat t with
  | none => none
  | some (u, t') => some (a + u * (b - a), t')

/-- `rand_dt(start, end)` from the source: uniform datetime in `[start, end)`,
returning `start` without drawing when the interval is empty. -/
def rand_dt (start end_ : Int) (t : Tape) : Option (Int × Tape) :=
  if end_ - start ≤ 0 then some (start, t)
  else
    match randrange (end_ - start).toNat t with
    | none => none
    | some (v, t') => some (start + (v : Int), t')

/-- `random.sample(l, k)`: `k` distinct elements drawn without replacement,
modelled by repeated selection-and-removal.  When `k` exceeds the population
size the selection eventually draws from an empty list and fails, matching
Python's `ValueError`. -/
def pysample (l : List α) (k : Nat) (t : Tape) : Option (List α × Tape) :=
  match k with
  | 0 => some ([], t)
  | k' + 1 =>
    match randrange l.length t with
    | none => none
    | some (j, t') =>
      match l.get? j with
      | none => none
      | some a =>
        match pysample (l.eraseIdx j) k' t' with
        | none => none
        | some (rest, t'') => some (a :: rest, t'')

/-- In-place update `l[i] = f l[i]` of a Python list.  Every call site passes
an index below the length (the indices come from `range(len(l))`), so the
out-of-range `IndexError` case is unreachable and modelled as a no-op. -/
def setAt : List α → Nat → (α → α) → List α
  | [], _, _ => []
  | a :: l, 0, f => f a :: l
  | a :: l, n + 1, f => a :: setAt l n f

/-- `str(uuid.uuid4())`: a fresh identifier derived from the 122 random bits
of an RFC-4122 version-4 UUID, drawn from the separate entropy tape (Python's
`uuid.uuid4` reads `os.urandom`, not the seeded `random` stream).  The
hyphenated hexadecimal rendering is abstracted; what matters is that the
string is non-blank and determined by the entropy draw. -/
def uuid4 (t : Tape) : Option (String × Tape) :=
  match t with
  | [] => none
  | v :: t => some ("uuid-" ++ toString (v % 2 ^ 122), t)

/-- Python `int(x)` truncation of a nonnegative product `rate * N`, as used in
`max(1, int(n * rate))`: floor, clamped into `Nat` (for a negative product
both Python's truncation and this definition give a value whose `max` with 1
is 1). -/
def intFloorNat (q : PQ) : Nat := q.floor.toNat

/-! ## Basic lemmas about the randomness primitives -/

theorem PQ.lt_def (x y : PQ) : (x < y) = (x.num * (y.den : Int) < y.num * (x.den : Int)) :=
  rfl

theorem PQ.le_def (x y : PQ) : (x ≤ y) = (x.num * (y.den : Int) ≤ y.num * (x.den : Int)) :=
  rfl

theorem randFloat_nonneg {t t' : Tape} {u : PQ} (h : randFloat t = some (u, t')) :
    0 ≤ u := by
  cases t with
  | nil => simp [randFloat] at h
  | cons v t =>
    simp only [randFloat, Option.some.injEq, Prod.mk.injEq] at h
    obtain ⟨rfl, rfl⟩ := h
    show (Int.ofNat 0) * ((FLOAT_DENOM : Nat) : Int)
        ≤ Int.ofNat (v % FLOAT_DENOM) * ((1 : Nat) : Int)
    simp only [Int.ofNat_eq_natCast]
    omega

theorem randFloat_lt_one {t t' : Tape} {u : PQ} (h : randFloat t = some (u, t')) :
    u < 1 := by
  cases t with
  | nil => simp [randFloat] at h
  | cons v t =>
    simp only [randFloat, Option.some.injEq, Prod.mk.injEq] at h
    obtain ⟨rfl, rfl⟩ := h
    show Int.ofNat (v % FLOAT_DENOM) * ((1 : Nat) : Int)
        < Int.ofNat 1 * ((FLOAT_DENOM : Nat) : Int)
    have : v % FLOAT_DENOM < FLOAT_DENOM := Nat.mod_lt v (by norm_num [FLOAT_DENOM])
    simp only [Int.ofNat_eq_natCast]
    omega

theorem randrange_lt {n : Nat} {t t' : Tape} {j : Nat}
    (h : randrange n t = some (j, t')) : j < n := by
  unfold randrange at h
  split at h
  · exact absurd h (by simp)
  · cases t with
    | nil => exact absurd h (by simp)
    | cons v t =>
      simp only [Option.some.injEq, Prod.mk.injEq] at h
      obtain ⟨rfl, rfl⟩ := h
      exact Nat.mod_lt _ (Nat.pos_of_ne_zero (by assumption))

theorem randint_bounds {a b : Nat} {t t' : Tape} {k : Nat}
    (h : randint a b t = some (k, t')) : a ≤ k ∧ k ≤ b := by
  unfold randint at h
  split at h
  · exact absurd h (by simp)
  · cases t with
    | nil => exact absurd h (by simp)
    | cons v t =>
      simp only [Option.some.injEq, Prod.mk.injEq] at h
      obtain ⟨rfl, rfl⟩ := h
      refine ⟨Nat.le_add_right _ _, ?_⟩
      have hba : a ≤ b := Nat.le_of_not_lt (by assumption)
      have : v % (b - a + 1) < b - a + 1 := Nat.mod_lt v (Nat.succ_pos _)
      omega

theorem pychoice_mem {l : List α} {t t' : Tape} {a : α}
    (h : pychoice l t = some (a, t')) : a ∈ l := by
  match l, t with
  | [], _ => simp [pychoice] at h
  | _ :: _, [] => simp [pychoice] at h
  | b :: bs, v :: t =>
    simp only [pychoice, Option.some.injEq, Prod.mk.injEq] at h
    obtain ⟨rfl, rfl⟩ := h
    exact List.get_mem _ _ _

theorem wpick_mem {l : List (α × PQ)} {u : PQ} {a : α}
    (h : wpick l u = some a) : a ∈ l.map Prod.fst := by
  induction l generalizing u with
  | nil => simp [wpick] at h
  | cons p rest ih =>
    obtain ⟨b, w⟩ := p
    simp only [wpick] at h
    split at h
    · simp only [Option.some.injEq] at h
      simp [h.symm]
    · simpa using Or.inr (ih h)

theorem pychoices_mem {pop : List α} {ws : List PQ} {t t' : Tape} {a : α}
    (h : pychoices pop ws t = some (a, t')) : a ∈ pop := by
  unfold pychoices at h
  split at h
  · exact absurd h (by simp)
  · rename_i hlen
    cases hrf : randFloat t with
    | none => rw [hrf] at h; exact absurd h (by simp)
    | some p =>
      obtain ⟨u, t₁⟩ := p
      rw [hrf] at h
      dsimp only at h
      cases hw : wpick (pop.zip ws) (u * PQ.lsum ws) with
      | none => rw [hw] at h; exact absurd h (by simp)
      | some b =>
        rw [hw] at h
        dsimp only at h
        simp only [Option.some.injEq, Prod.mk.injEq] at h
        obtain ⟨rfl, rfl⟩ := h
        have := wpick_mem hw
        rw [List.map_fst_zip] at this
        · exact this
        · exact Nat.le_of_eq (by simpa using hlen)

theorem rand_dt_ge {s e : Int} {t t' : Tape} {r : Int}
    (h : rand_dt s e t = some (r, t')) : s ≤ r := by
  unfold rand_dt at h
  split at h
  · simp only [Option.some.injEq, Prod.mk.injEq] at h
    omega
  · cases hr : randrange (e - s).toNat t with
    | none => rw [hr] at h; exact absurd h (by simp)
    | some p =>
      obtain ⟨v, t₁⟩ := p
      rw [hr] at h
      dsimp only at h
      simp only [Option.some.injEq, Prod.mk.injEq] at h
      obtain ⟨rfl, rfl⟩ := h
      omega

theorem rand_dt_lt {s e : Int} {t t' : Tape} {r : Int} (hse : s < e)
    (h : rand_dt s e t = some (r, t')) : r < e := by
  unfold rand_dt at h
  split at h
  · omega
  · cases hr : randrange (e - s).toNat t with
    | none => rw [hr] at h; exact absurd h (by simp)
    | some p =>
      obtain ⟨v, t₁⟩ := p
      rw [hr] at h
      dsimp only at h
      simp only [Option.some.injEq, Prod.mk.injEq] at h
      obtain ⟨rfl, rfl⟩ := h
      have hv := randrange_lt hr
      have : (v : Int) < e - s := by
        have := Int.toNat_of_nonneg (a := e - s) (by omega)
        omega
      omega

theorem pysample_mem {l : List α} {k : Nat} {t t' : Tape} {s : List α}
    (h : pysample l k t = some (s, t')) : ∀ x ∈ s, x ∈ l := by
  induction k generalizing l t s t' with
  | zero =>
    simp only [pysample, Option.some.injEq, Prod.mk.injEq] at h
    obtain ⟨rfl, rfl⟩ := h
    simp
  | succ k ih =>
    simp only [pysample] at h
    cases hr : randrange l.length t with
    | none => rw [hr] at h; exact absurd h (by simp)
    | some p =>
      obtain ⟨j, t₁⟩ := p
      rw [hr] at h
      dsimp only at h
      cases hg : l.get? j with
      | none => rw [hg] at h; exact absurd h (by simp)
      | some a =>
        rw [hg] at h
        dsimp only at h
        cases hrec : pysample (l.eraseIdx j) k t₁ with
        | none => rw [hrec] at h; exact absurd h (by simp)
        | some q =>
          obtain ⟨rest, t₂⟩ := q
          rw [hrec] at h
          dsimp only at h
          simp only [Option.some.injEq, Prod.mk.injEq] at h
          obtain ⟨rfl, rfl⟩ := h
          intro x hx
          rcases List.mem_cons.mp hx with rfl | hx
          · exact List.get?_mem hg
          · exact (l.eraseIdx_sublist j).subset (ih hrec x hx)

theorem pysample_length {l : List α} {k : Nat} {t t' : Tape} {s : List α}
    (h : pysample l k t = some (s, t')) : s.length = k := by
  induction k generalizing l t s t' with
  | zero =>
    simp only [pysample, Option.some.injEq, Prod.mk.injEq] at h
    obtain ⟨rfl, rfl⟩ := h
    rfl
  | succ k ih =>
    simp only [pysample] at h
    cases hr : randrange l.length t with
    | none => rw [hr] at h; exact absurd h (by simp)
    | some p =>
      obtain ⟨j, t₁⟩ := p
      rw [hr] at h
      dsimp only at h
      cases hg : l.get? j with
      | none => rw [hg] at h; exact absurd h (by simp)
      | some a =>
        rw [hg] at h
        dsimp only at h
        cases hrec : pysample (l.eraseIdx j) k t₁ with
        | none => rw [hrec] at h; exact absurd h (by simp)
        | some q =>
          obtain ⟨rest, t₂⟩ := q
          rw [hrec] at h
          dsimp only at h
          simp only [Option.some.injEq, Prod.mk.injEq] at h
          obtain ⟨rfl, rfl⟩ := h
          simp [ih hrec]

theorem not_mem_eraseIdx_of_nodup {l : List α} {j : Nat} {a : α}
    (hnd : l.Nodup) (hg : l.get? j = some a) : a ∉ l.eraseIdx j := by
  induction l generalizing j with
  | nil => simp [List.get?] at hg
  | cons b bs ih =>
    cases j with
    | zero =>
      simp only [List.get?] at hg
      obtain rfl := Option.some.inj hg
      simpa [List.eraseIdx] using (List.nodup_cons.mp hnd).1
    | succ j =>
      simp only [List.get?] at hg
      have hnd' := List.nodup_cons.mp hnd
      intro hmem
      simp only [List.eraseIdx, List.mem_cons] at hmem
      rcases hmem with rfl | hmem
      · exact hnd'.1 (List.get?_mem hg)
      · exact ih hnd'.2 hg hmem

theorem pysample_nodup {l : List α} {k : Nat} {t t' : Tape} {s : List α}
    (hnd : l.Nodup) (h : pysample l k t = some (s, t')) : s.Nodup := by
  induction k generalizing l t s t' with
  | zero =>
    simp only [pysample, Option.some.injEq, Prod.mk.injEq] at h
    obtain ⟨rfl, rfl⟩ := h
    simp
  | succ k ih =>
    simp only [pysample] at h
    cases hr : randrange l.length t with
    | none => rw [hr] at h; exact absurd h (by simp)
    | some p =>
      obtain ⟨j, t₁⟩ := p
      rw [hr] at h
      dsimp only at h
      cases hg : l.get? j with
      | none => rw [hg] at h; exact absurd h (by simp)
      | some a =>
        rw [hg] at h
        dsimp only at h
        cases hrec : pysample (l.eraseIdx j) k t₁ with
        | none => rw [hrec] at h; exact absurd h (by simp)
        | some q =>
          obtain ⟨rest, t₂⟩ := q
          rw [hrec] at h
          dsimp only at h
          simp only [Option.some.injEq, Prod.mk.injEq] at h
          obtain ⟨rfl, rfl⟩ := h
          refine List.nodup_cons.mpr ⟨?_, ih (hnd.sublist (l.eraseIdx_sublist j)) hrec⟩
          intro hmem
          exact not_mem_eraseIdx_of_nodup hnd hg
            (pysample_mem hrec a hmem)

/-! ## Lemmas about `setAt` -/

@[simp] theorem length_setAt (l : List α) (i : Nat) (f : α → α) :
    (setAt l i f).length = l.length := by
  induction l generalizing i with
  | nil => rfl
  | cons a l ih =>
    cases i with
    | zero => rfl
    | succ i => simp [setAt, ih]

theorem get?_setAt_of_ne (l : List α) (f : α → α) {i j : Nat} (h : i ≠ j) :
    (setAt l i f).get? j = l.get? j := by
  induction l generalizing i j with
  | nil => rfl
  | cons a l ih =>
    cases i with
    | zero =>
      cases j with
      | zero => exact absurd rfl h
      | succ j => rfl
    | succ i =>
      cases j with
      | zero => rfl
      | succ j => simpa [setAt] using ih (fun hc => h (by omega))

theorem get?_setAt_self {l : List α} {i : Nat} {a : α} (f : α → α)
    (h : l.get? i = some a) : (setAt l i f).get? i = some (f a) := by
  induction l generalizing i with
  | nil => simp [List.get?] at h
  | cons b l ih =>
    cases i with
    | zero =>
      simp only [List.get?] at h
      obtain rfl := Option.some.inj h
      rfl
    | succ i =>
      simp only [List.get?] at h
      simpa [setAt] using ih h

theorem setAt_forall {l : List α} {i : Nat} {f : α → α} {P : α → Prop}
    (hl : ∀ a ∈ l, P a) (hf : ∀ a, P a → P (f a)) :
    ∀ x ∈ setAt l i f, P x := by
  induction l generalizing i with
  | nil => simp [setAt]
  | cons a l ih =>
    cases i with
    | zero =>
      intro x hx
      rcases List.mem_cons.mp hx with rfl | hx
      · exact hf a (hl a (List.mem_cons_self a l))
      · exact hl x (List.mem_cons_of_mem a hx)
    | succ i =>
      intro x hx
      rcases List.mem_cons.mp hx with rfl | hx
      · exact hl x (List.mem_cons_self x l)
      · exact ih (fun b hb => hl b (List.mem_cons_of_mem a hb)) x hx

theorem uuid4_not_blank {t t' : Tape} {s : String}
    (h : uuid4 t = some (s, t')) : ¬ (s.data.all Char.isWhitespace) := by
  cases t with
  | nil => simp [uuid4] at h
  | cons v t =>
    simp only [uuid4, Option.some.injEq, Prod.mk.injEq] at h
    obtain ⟨rfl, rfl⟩ := h
    intro hall
    have hdata : ("uuid-" ++ toString (v % 2 ^ 122)).data
        = "uuid-".data ++ (toString (v % 2 ^ 122)).data := by
      simp [String.data_append]
    rw [hdata] at hall
    have hu : 'u' ∈ "uuid-".data ++ (toString (v % 2 ^ 122)).data :=
      List.mem_append_left _ (by decide)
    have : ('u' : Char).isWhitespace := by
      simpa using List.all_eq_true.mp hall 'u' hu
    simp [Char.isWhitespace] at this

/-! ## Scenario controls and fixed tables (module-level constants) -/

/-- Country with most feature users / transactions. -/
def TOP_ADOPTION_COUNTRY : String := "FR"

/-- Country with fewer transactions but much higher amounts. -/
def VIP_COUNTRY : String := "CH"

/-- User population distribution (weights need not sum to 1). -/
def COUNTRY_WEIGHTS : List (String × PQ) :=
  [("FR", 38/100), ("PT", 12/100), ("ES", 10/100), ("DE", 10/100), ("IT", 10/100),
   ("NL", 7/100), ("BE", 6/100), ("GB", 5/100), ("IE", 1/100), ("CH", 1/100)]

/-- Feature adoption probability by country. -/
def FEATURE_ADOPTION_RATE : List (String × PQ) :=
  [("FR", 75/100),
   ("PT", 25/100), ("ES", 25/100), ("DE", 25/100), ("IT", 25/100), ("NL", 25/100),
   ("BE", 25/100), ("GB", 25/100), ("IE", 25/100),
   ("CH", 8/100)]

/-- Amount multiplier by sender country. -/
def AMOUNT_MULTIPLIER : List (String × PQ) :=
  [("FR", 110/100),
   ("PT", 1), ("ES", 1), ("DE", 1), ("IT", 1), ("NL", 1),
   ("BE", 1), ("GB", 1), ("IE", 1),
   ("CH", 8)]

/-- Higher value: more transactions late in the month. -/
def TXN_TREND_STRENGTH : PQ := 25/10

/-- Higher value: bigger amounts late in the month. -/
def AMOUNT_TREND_STRENGTH : PQ := 8/10

/-- Probability that a receiver is drawn from the sender's country. -/
def SAME_COUNTRY_RECEIVER_PROB : PQ := 65/100

def FIRST_NAMES : List String :=
  ["Alex", "Sam", "Jordan", "Taylor", "Casey", "Jamie", "Riley", "Morgan", "Avery", "Cameron",
   "Charlie", "Drew", "Emerson", "Finley", "Hayden", "Jules", "Kai", "Logan", "Noah", "Quinn"]

def LAST_NAMES : List String :=
  ["Martin", "Bernard", "Thomas", "Petit", "Robert", "Richard", "Durand", "Dubois", "Moreau", "Laurent",
   "Simon", "Michel", "Lefevre", "Garcia", "David", "Bertrand", "Roux", "Vincent", "Fournier", "Morel"]

def CURRENCIES : List String := ["BTC", "EUR", "USD"]

def EVENT_TYPES : List String := ["login", "page_view", "button_click", "logout"]

def PAGES : List String := ["/home", "/wallet", "/send", "/receive", "/settings", "/help", "/profile"]

def BUTTONS : List String :=
  ["send_now", "request_money", "add_card", "logout", "support_chat", "confirm", "cancel"]

def DEVICES : List String := ["android", "ios", "web"]

def OS_LIST : List String :=
  ["Android 14", "Android 13", "iOS 26", "iOS 18", "Windows 11", "macOS 14", "Ubuntu 22.04"]

/-- Python `dict.get(k, d)`. -/
def lookupD (l : List (String × PQ)) (k : String) (d : PQ) : PQ :=
  match l.lookup k with
  | some v => v
  | none => d

/-! ## Data model

Timestamp-valued fields hold `Option Int` (epoch seconds): `none` is the
empty string the CSV layer would write, `some v` the `iso`-rendered value
(the fixed `YYYY-MM-DD HH:MM:SS` format round-trips exactly). -/

/-- An emitted user row. -/
structure PUser where
  user_id : Nat
  first_name : String
  last_name : String
  email : String
  country : String
  signup_at : Option Int
deriving Repr, DecidableEq

/-- Per-user hidden metadata (`user_meta[uid]` in the source). -/
structure UserMeta where
  signup_dt : Option Int
  country : String
  is_feature_user : Bool
deriving Repr, DecidableEq

instance : Inhabited UserMeta := ⟨⟨none, "", false⟩⟩

/-- An emitted transaction row.  `amount` is `none` for the blank field. -/
structure PTxn where
  transaction_id : String
  sender_user_id : Nat
  receiver_user_id : Nat
  amount : Option PQ
  currency : String
  status : String
  created_at : Int
deriving Repr, DecidableEq

/-- An emitted app-event row. -/
structure PEvent where
  event_id : String
  user_id : Nat
  event_type : String
  event_ts : Int
  session_id : String
  page : String
  button_id : String
  device : String
  os : String
  ip : String
deriving Repr, DecidableEq

/-- Lookup in the user-metadata dict keyed `1..n_users`.  All call sites
access keys in `1..n_users` of a dict built with exactly those keys, so the
`KeyError` default is unreachable. -/
def mget (metas : List UserMeta) (uid : Nat) : UserMeta :=
  metas.getD (uid - 1) default

/-! ## `generate_users` -/

/-- One iteration of the `generate_users` loop: the draws happen in exactly
the source order (first name, last name, email number, signup timestamp,
null-signup coin, null-email coin, weighted country, adoption coin). -/
def mkUser (uid : Nat) (mS mE : Int) (null_email_rate null_signup_rate : PQ)
    (t : Tape) : Option ((PUser × UserMeta) × Tape) := do
  let (fn, t₁) ← pychoice FIRST_NAMES t
  let (ln, t₂) ← pychoice LAST_NAMES t₁
  let (mailNum, t₃) ← randint 10 9999 t₂
  let base_email := pyLower (fn ++ "." ++ ln ++ toString mailNum ++ "@example.com")
  let (signup_dt, t₄) ← rand_dt mS mE t₃
  let (uSign, t₅) ← randFloat t₄
  let signup_dt_obj : Option Int := if uSign < null_signup_rate then none else some signup_dt
  let (uMail, t₆) ← randFloat t₅
  let email_val : String := if uMail < null_email_rate then "" else base_email
  let (country, t₇) ← pychoices (COUNTRY_WEIGHTS.map Prod.fst) (COUNTRY_WEIGHTS.map Prod.snd) t₆
  let adopt_p := lookupD FEATURE_ADOPTION_RATE country (25/100)
  let (uAdopt, t₈) ← randFloat t₇
  some ((⟨uid, fn, ln, email_val, country, signup_dt_obj⟩,
         ⟨signup_dt_obj, country, decide (uAdopt < adopt_p)⟩), t₈)

/-- The `for user_id in range(1, n_users + 1)` loop, generating `count` more
users starting at id `uid`. -/
def genUsersFrom (mS mE : Int) (null_email_rate null_signup_rate : PQ) :
    Nat → Nat → Tape → Option ((List PUser × List UserMeta) × Tape)
  | _, 0, t => some (([], []), t)
  | uid, c + 1, t => do
    let ((u, m), t₁) ← mkUser uid mS mE null_email_rate null_signup_rate t
    let ((us, ms), t₂) ← genUsersFrom mS mE null_email_rate null_signup_rate (uid + 1) c t₁
    some ((u :: us, m :: ms), t₂)

/-- `generate_users(n_users, month_start, month_end, null_email_rate,
null_signup_rate)`: the emitted rows together with the metadata dict
(`user_meta[uid]` is entry `uid - 1` of the second list). -/
def generate_users (n_users : Nat) (mS mE : Int)
    (null_email_rate null_signup_rate : PQ) (t : Tape) :
    Option ((List PUser × List UserMeta) × Tape) :=
  genUsersFrom mS mE null_email_rate null_signup_rate 1 n_users t

/-! ## `generate_transactions` -/

/-- The adopter subset `feature_users`, with the fallback to the full
population when fewer than 10 users adopted. -/
def featureUsersOf (metas : List UserMeta) (n_users : Nat) : List Nat :=
  let fu := (List.range n_users).filterMap (fun j =>
    if (mget metas (j + 1)).is_feature_user then some (j + 1) else none)
  if fu.length < 10 then (List.range n_users).map (· + 1) else fu

/-- `(month_end - month_start).days` (`timedelta.days` floors). -/
def windowDays (mS mE : Int) : Nat := ((mE - mS).fdiv 86400).toNat

/-- `day_weights`: linearly increasing weight per day index. -/
def dayWeights (days : Nat) : List PQ :=
  (List.range days).map (fun i =>
    1 + TXN_TREND_STRENGTH * ((i : PQ) / ((max 1 (days - 1) : Nat) : PQ)))

/-- `day_probs`: the normalized day weights. -/
def dayProbsOf (days : Nat) : List PQ :=
  (dayWeights days).map (· / PQ.lsum (dayWeights days))

/-- The scan inside `pick_day_index`: first index whose cumulative
probability reaches the draw `r`, else `days - 1`. -/
def pickDayGo (r : PQ) : PQ → Nat → List PQ → Nat → Nat
  | _, _, [], days => days - 1
  | s, i, p :: rest, days => if r ≤ s + p then i else pickDayGo r (s + p) (i + 1) rest days

/-- `pick_day_index()`. -/
def pick_day_index (dayProbs : List PQ) (days : Nat) (t : Tape) : Option (Nat × Tape) :=
  match randFloat t with
  | none => none
  | some (r, t') => some (pickDayGo r 0 0 dayProbs days, t')

/-- `random_dt_in_day(day_idx)`: uniform timestamp inside the chosen day,
clipped to the window end. -/
def random_dt_in_day (mS mE : Int) (day_idx : Nat) (t : Tape) : Option (Int × Tape) :=
  rand_dt (mS + (day_idx : Int) * 86400) (min (mS + (day_idx : Int) * 86400 + 86400) mE) t

/-- `pick_sender()`: weighted draw over `feature_users` (3.0 for the top
adoption country, 0.4 for the VIP country, 1.0 otherwise). -/
def pick_sender (metas : List UserMeta) (feature_users : List Nat) (t : Tape) :
    Option (Nat × Tape) :=
  pychoices feature_users
    (feature_users.map (fun uid =>
      if (mget metas uid).country = TOP_ADOPTION_COUNTRY then 3
      else if (mget metas uid).country = VIP_COUNTRY then 4/10
      else 1)) t

/-- The `while r == sender_id` retry loop of `pick_receiver`: draws
`randint(1, n_users)` until the value differs from the sender.  An infinite
loop (e.g. `n_users = 1` with the sender as only user) exhausts the tape and
is `none`; `randint` on an empty range (`n_users = 0`) raises. -/
def retryReceiver (sender n_users : Nat) : Tape → Option (Nat × Tape)
  | [] => none
  | v :: t =>
    if n_users = 0 then none
    else
      let r := 1 + v % n_users
      if r = sender then retryReceiver sender n_users t else some (r, t)

/-- `same_country_users`: users sharing the sender's country, the sender
excluded. -/
def sameCountryUsers (metas : List UserMeta) (n_users sender : Nat) : List Nat :=
  (List.range n_users).filterMap (fun j =>
    if (mget metas (j + 1)).country = (mget metas sender).country ∧ (j + 1) ≠ sender
    then some (j + 1) else none)

/-- `pick_receiver(sender_id)`. -/
def pick_receiver (metas : List UserMeta) (n_users sender : Nat) (t : Tape) :
    Option (Nat × Tape) :=
  match randFloat t with
  | none => none
  | some (u, t₁) =>
    if u < SAME_COUNTRY_RECEIVER_PROB then
      match sameCountryUsers metas n_users sender with
      | [] => retryReceiver sender n_users t₁
      | x :: xs => pychoice (x :: xs) t₁
    else retryReceiver sender n_users t₁

/-- `10 ** e` from the amount synthesis (floating-point exponentiation).
No claim in this development depends on the numeric amount value, only on
whether the field is blank, so the transcendental power is modelled by the
computable rational `10^⌊e⌋` (positive, monotone in the draw). -/
def tenPow (e : PQ) : PQ :=
  if e.floor < 0 then ⟨1, 10 ^ (-e.floor).toNat⟩ else ⟨Int.ofNat (10 ^ e.floor.toNat), 1⟩

/-- `round(x, 2)` (float round-half-even abstracted to a fixed rational
rounding at two decimals). -/
def round2 (q : PQ) : PQ := ⟨(q * 100 + 1/2).floor, 100⟩

/-- The lifecycle lower bound of the baseline loop: `start_dt = month_start`
raised successively to the sender's and the receiver's known signup. -/
def startDtOf (mS : Int) (sender_signup receiver_signup : Option Int) : Int :=
  let start₁ := match sender_signup with | some v => max mS v | none => mS
  match receiver_signup with | some v => max start₁ v | none => start₁

/-- One iteration of the baseline transaction loop, draws in source order:
sender, receiver, day index, in-day timestamp, lifecycle redraw (only when
the draw precedes the later known signup), amount exponent, currency,
status; the `transaction_id` is a `uuid4` from the entropy tape. -/
def mkCleanTxn (metas : List UserMeta) (n_users : Nat) (mS mE : Int)
    (feature_users : List Nat) (days : Nat) (dayProbs : List PQ)
    (rng ut : Tape) : Option (PTxn × Tape × Tape) := do
  let (sender_id, r₁) ← pick_sender metas feature_users rng
  let (receiver_id, r₂) ← pick_receiver metas n_users sender_id r₁
  let sender_signup := (mget metas sender_id).signup_dt
  let receiver_signup := (mget metas receiver_id).signup_dt
  let (day_idx, r₃) ← pick_day_index dayProbs days r₂
  let (created₀, r₄) ← random_dt_in_day mS mE day_idx r₃
  let start_dt := startDtOf mS sender_signup receiver_signup
  let (created_at, r₅) ← if created₀ < start_dt then rand_dt start_dt mE r₄ else some (created₀, r₄)
  let (ue, r₆) ← pyuniform (3/10) (22/10) r₅
  let time_scale : PQ := 1 + AMOUNT_TREND_STRENGTH * ((day_idx : PQ) / ((max 1 (days - 1) : Nat) : PQ))
  let country_scale := lookupD AMOUNT_MULTIPLIER (mget metas sender_id).country 1
  let amount := round2 (tenPow ue * time_scale * country_scale)
  let (currency, r₇) ← pychoices CURRENCIES [85/100, 10/100, 5/100] r₆
  let (status, r₈) ← pychoices ["completed", "pending", "failed"] [90/100, 7/100, 3/100] r₇
  let (tid, u₁) ← uuid4 ut
  some (⟨tid, sender_id, receiver_id, some amount, currency, status, created_at⟩, r₈, u₁)

/-- The `for _ in range(n_txns)` baseline loop. -/
def cleanTxns (metas : List UserMeta) (n_users : Nat) (mS mE : Int)
    (feature_users : List Nat) (days : Nat) (dayProbs : List PQ) :
    Nat → Tape → Tape → Option (List PTxn × Tape × Tape)
  | 0, rng, ut => some ([], rng, ut)
  | c + 1, rng, ut => do
    let (txn, rng₁, ut₁) ← mkCleanTxn metas n_users mS mE feature_users days dayProbs rng ut
    let (txns, rng₂, ut₂) ← cleanTxns metas n_users mS mE feature_users days dayProbs c rng₁ ut₁
    some (txn :: txns, rng₂, ut₂)

/-- `eligible_users` of the temporal-violation pass: users with a known
signup strictly later than `month_start + 3 days`. -/
def eligibleUsers (metas : List UserMeta) (n_users : Nat) (mS : Int) : List Nat :=
  (List.range n_users).filterMap (fun j =>
    match (mget metas (j + 1)).signup_dt with
    | some s => if mS + 3 * 86400 < s then some (j + 1) else none
    | none => none)

/-- Body of the temporal-violation loop for one sampled row index: when the
eligible set is empty nothing happens (the `if eligible_users:` guard);
otherwise overwrite sender or receiver (coin flip) with the bad user and
force `created_at` strictly before that user's signup. -/
def temporalStep (metas : List UserMeta) (mS : Int) (eligible : List Nat)
    (txns : List PTxn) (i : Nat) (rng : Tape) : Option (List PTxn × Tape) :=
  match eligible with
  | [] => some (txns, rng)
  | _ :: _ => do
    let (bad_user, r₁) ← pychoice eligible rng
    let (c, r₂) ← randFloat r₁
    let txns₁ := if c < 1/2
      then setAt txns i (fun txn => { txn with sender_user_id := bad_user })
      else setAt txns i (fun txn => { txn with receiver_user_id := bad_user })
    match (mget metas bad_user).signup_dt with
    | none => none
    | some bad_signup => do
      let forced_end := max (mS + 3600) (bad_signup - 60)
      let (ts, r₃) ← rand_dt mS forced_end r₂
      some (setAt txns₁ i (fun txn => { txn with created_at := ts }), r₃)

/-- The temporal-violation loop over the sampled row indices. -/
def temporalFold (metas : List UserMeta) (mS : Int) (eligible : List Nat)
    (txns : List PTxn) : List Nat → Tape → Option (List PTxn × Tape)
  | [], rng => some (txns, rng)
  | i :: rest, rng => do
    let (txns₁, rng₁) ← temporalStep metas mS eligible txns i rng
    temporalFold metas mS eligible txns₁ rest rng₁

/-- Anomaly pass 1 (temporal inconsistency): sample
`min(max(1, int(n_txns * rate)), n_txns)` distinct row indices and run the
mutation loop. -/
def applyTemporalPass (n_txns n_users : Nat) (mS : Int) (metas : List UserMeta)
    (before_signup_rate : PQ) (txns : List PTxn) (rng : Tape) :
    Option (List PTxn × Tape) := do
  let n_before := max 1 (intFloorNat ((n_txns : PQ) * before_signup_rate))
  let (idxs, rng₁) ← pysample (List.range n_txns) (min n_before n_txns) rng
  temporalFold metas mS (eligibleUsers metas n_users mS) txns idxs rng₁

/-- The blanking loop of anomaly pass 2 (no draws in the body). -/
def amountFold (txns : List PTxn) : List Nat → List PTxn
  | [] => txns
  | i :: rest => amountFold (setAt txns i (fun txn => { txn with amount := none })) rest

/-- Anomaly pass 2 (NULL amount). -/
def applyAmountPass (n_txns : Nat) (null_amount_rate : PQ) (txns : List PTxn)
    (rng : Tape) : Option (List PTxn × Tape) := do
  let n_null := max 1 (intFloorNat ((n_txns : PQ) * null_amount_rate))
  let (idxs, rng₁) ← pysample (List.range n_txns) (min n_null n_txns) rng
  some (amountFold txns idxs, rng₁)

/-- One duplicate-id copy: `source_idx = randrange(0, idx)` and
`txns[idx].transaction_id = txns[source_idx].transaction_id`. -/
def dupStep (txns : List PTxn) (idx : Nat) (rng : Tape) : Option (List PTxn × Tape) := do
  let (source_idx, rng₁) ← randrange idx rng
  match txns.get? source_idx with
  | none => none
  | some src =>
      some (setAt txns idx (fun txn => { txn with transaction_id := src.transaction_id }), rng₁)

/-- The duplicate-id loop over the sampled target indices. -/
def dupFold (txns : List PTxn) : List Nat → Tape → Option (List PTxn × Tape)
  | [], rng => some (txns, rng)
  | i :: rest, rng => do
    let (txns₁, rng₁) ← dupStep txns i rng
    dupFold txns₁ rest rng₁

/-- `min(n_dupes, n_txns - 1)`: how many duplicate targets the pass samples
from `range(1, n_txns)`. -/
def dupTargetCount (n_txns : Nat) (dup_id_rate : PQ) : Nat :=
  min (max 1 (intFloorNat ((n_txns : PQ) * dup_id_rate))) (n_txns - 1)

/-- Anomaly pass 3 (duplicate transaction ids); a no-op unless `n_txns > 2`. -/
def applyDupPass (n_txns : Nat) (dup_id_rate : PQ) (txns : List PTxn) (rng : Tape) :
    Option (List PTxn × Tape) :=
  if 2 < n_txns then do
    let (targets, rng₁) ← pysample (List.range' 1 (n_txns - 1)) (dupTargetCount n_txns dup_id_rate) rng
    dupFold txns targets rng₁
  else some (txns, rng)

/-- `generate_transactions(n_txns, n_users, month_start, month_end,
user_meta, before_signup_rate, dup_id_rate, null_amount_rate)`: the clean
batch followed by the three in-place anomaly passes, in source order. -/
def generate_transactions (n_txns n_users : Nat) (mS mE : Int) (metas : List UserMeta)
    (before_signup_rate dup_id_rate null_amount_rate : PQ) (rng ut : Tape) :
    Option (List PTxn × Tape × Tape) := do
  let feature_users := featureUsersOf metas n_users
  let days := windowDays mS mE
  let dayProbs := dayProbsOf days
  let (txns, rng₁, ut₁) ← cleanTxns metas n_users mS mE feature_users days dayProbs n_txns rng ut
  let (txns₁, rng₂) ← applyTemporalPass n_txns n_users mS metas before_signup_rate txns rng₁
  let (txns₂, rng₃) ← applyAmountPass n_txns null_amount_rate txns₁ rng₂
  let (txns₃, rng₄) ← applyDupPass n_txns dup_id_rate txns₂ rng₃
  some (txns₃, rng₄, ut₁)

/-! ## `generate_app_events` -/

/-- `make_ip()`: four octet draws rendered as a dotted quad. -/
def make_ip (rng : Tape) : Option (String × Tape) := do
  let (a, r₁) ← randint 1 255 rng
  let (b, r₂) ← randint 0 255 r₁
  let (c, r₃) ← randint 0 255 r₂
  let (d, r₄) ← randint 0 255 r₃
  some (toString a ++ "." ++ toString b ++ "." ++ toString c ++ "." ++ toString d, r₄)

/-- One iteration of the event loop, draws in source order: user id, event
type, timestamp, session uuid (entropy tape), device, os, page, button (only
for `button_click`), event uuid (entropy tape), ip (drawn at record
construction). -/
def mkCleanEvent (n_users : Nat) (mS mE : Int) (rng ut : Tape) :
    Option (PEvent × Tape × Tape) := do
  let (user_id, r₁) ← randint 1 n_users rng
  let (event_type, r₂) ← pychoice EVENT_TYPES r₁
  let (ts, r₃) ← rand_dt mS mE r₂
  let (session_id, u₁) ← uuid4 ut
  let (device, r₄) ← pychoice DEVICES r₃
  let (os_name, r₅) ← pychoice OS_LIST r₄
  let (page, r₆) ← pychoice PAGES r₅
  let (button_id, r₇) ←
    if event_type = "button_click" then pychoice BUTTONS r₆ else some ("", r₆)
  let (event_id, u₂) ← uuid4 u₁
  let (ip, r₈) ← make_ip r₇
  some (⟨event_id, user_id, event_type, ts, session_id, page, button_id, device, os_name, ip⟩,
        r₈, u₂)

/-- The `for _ in range(n_events)` baseline loop. -/
def cleanEvents (n_users : Nat) (mS mE : Int) :
    Nat → Tape → Tape → Option (List PEvent × Tape × Tape)
  | 0, rng, ut => some ([], rng, ut)
  | c + 1, rng, ut => do
    let (e, rng₁, ut₁) ← mkCleanEvent n_users mS mE rng ut
    let (es, rng₂, ut₂) ← cleanEvents n_users mS mE c rng₁ ut₁
    some (e :: es, rng₂, ut₂)

/-- The orphan-identity loop: each sampled row gets
`user_id = n_users + randint(1, 50)`. -/
def orphanFold (n_users : Nat) (events : List PEvent) :
    List Nat → Tape → Option (List PEvent × Tape)
  | [], rng => some (events, rng)
  | i :: rest, rng => do
    let (k, rng₁) ← randint 1 50 rng
    orphanFold n_users (setAt events i (fun e => { e with user_id := n_users + k })) rest rng₁

/-- Anomaly pass 4 (orphan foreign keys). -/
def applyOrphanPass (n_events n_users : Nat) (orphan_user_rate : PQ)
    (events : List PEvent) (rng : Tape) : Option (List PEvent × Tape) := do
  let n_orphan := max 1 (intFloorNat ((n_events : PQ) * orphan_user_rate))
  let (idxs, rng₁) ← pysample (List.range n_events) (min n_orphan n_events) rng
  orphanFold n_users events idxs rng₁

/-- The event-type blanking loop (no draws in the body). -/
def nullTypeFold (events : List PEvent) : List Nat → List PEvent
  | [] => events
  | i :: rest => nullTypeFold (setAt events i (fun e => { e with event_type := "" })) rest

/-- Anomaly pass 5 (missing event type). -/
def applyNullTypePass (n_events : Nat) (null_event_type_rate : PQ)
    (events : List PEvent) (rng : Tape) : Option (List PEvent × Tape) := do
  let n_null_type := max 1 (intFloorNat ((n_events : PQ) * null_event_type_rate))
  let (idxs, rng₁) ← pysample (List.range n_events) (min n_null_type n_events) rng
  some (nullTypeFold events idxs, rng₁)

/-- The out-of-window loop: 50/50 a timestamp in the 5 days before the
window or in the 5 days after it. -/
def oowFold (mS mE : Int) (events : List PEvent) :
    List Nat → Tape → Option (List PEvent × Tape)
  | [], rng => some (events, rng)
  | i :: rest, rng => do
    let (c, rng₁) ← randFloat rng
    let (ts, rng₂) ←
      if c < 1/2 then rand_dt (mS - 5 * 86400) mS rng₁
      else rand_dt mE (mE + 5 * 86400) rng₁
    oowFold mS mE (setAt events i (fun e => { e with event_ts := ts })) rest rng₂

/-- Anomaly pass 6 (out-of-window timestamps). -/
def applyOowPass (n_events : Nat) (mS mE : Int) (out_of_window_rate : PQ)
    (events : List PEvent) (rng : Tape) : Option (List PEvent × Tape) := do
  let n_oow := max 1 (intFloorNat ((n_events : PQ) * out_of_window_rate))
  let (idxs, rng₁) ← pysample (List.range n_events) (min n_oow n_events) rng
  oowFold mS mE events idxs rng₁

/-- `generate_app_events(n_events, n_users, month_start, month_end,
orphan_user_rate, null_event_type_rate, out_of_window_rate)`. -/
def generate_app_events (n_events n_users : Nat) (mS mE : Int)
    (orphan_user_rate null_event_type_rate out_of_window_rate : PQ) (rng ut : Tape) :
    Option (List PEvent × Tape × Tape) := do
  let (events, rng₁, ut₁) ← cleanEvents n_users mS mE n_events rng ut
  let (events₁, rng₂) ← applyOrphanPass n_events n_users orphan_user_rate events rng₁
  let (events₂, rng₃) ← applyNullTypePass n_events null_event_type_rate events₁ rng₂
  let (events₃, rng₄) ← applyOowPass n_events mS mE out_of_window_rate events₂ rng₃
  some (events₃, rng₄, ut₁)

/-! ## `summarize_anomalies` fragments used by the claims -/

/-- `_is_null(v)` for a string value: `str(v).strip() == ""`. -/
def pyIsNullStr (s : String) : Bool := s.data.all Char.isWhitespace

/-- `txn_ids`: ids of the rows whose `transaction_id` is not null-ish. -/
def txnIdsOf (txns : List PTxn) : List String :=
  (txns.filter (fun txn => ! pyIsNullStr txn.transaction_id)).map PTxn.transaction_id

/-- `dup_ids`: the distinct ids occurring more than once. -/
def dupIdsOf (txns : List PTxn) : List String :=
  (txnIdsOf txns).dedup.filter (fun tid => 1 < (txnIdsOf txns).count tid)

/-- `txn_dup_rows_total`: all rows involved in duplicated ids. -/
def txn_dup_rows_total (txns : List PTxn) : Nat :=
  ((dupIdsOf txns).map (fun tid => (txnIdsOf txns).count tid)).sum

/-- Modelled from the spec's words for the comparison in C8: the sum, over
all `transaction_id` values occurring more than once in the final records,
of their occurrence counts. -/
def specDupRowsTotal (txns : List PTxn) : Nat :=
  (((txns.map PTxn.transaction_id).dedup.filter
      (fun tid => 1 < (txns.map PTxn.transaction_id).count tid)).map
    (fun tid => (txns.map PTxn.transaction_id).count tid)).sum

/-- The orphan test of the auditor for one event: the stored user id is an
integer, so `int(uid)` always succeeds, and the row is an orphan when the id
is not in `set(range(1, n_users_expected + 1))`. -/
def isOrphanEvent (n_users_expected : Nat) (e : PEvent) : Bool :=
  decide (¬ (1 ≤ e.user_id ∧ e.user_id ≤ n_users_expected))

/-- `events_orphan_user`: how many event rows reference no real user. -/
def events_orphan_user (n_users_expected : Nat) (events : List PEvent) : Nat :=
  events.countP (isOrphanEvent n_users_expected)

/-! ## `parse_month` -/

/-- Python `str.split("-")`: the groups of characters between the `-`
occurrences (a structural recursion equivalent of `String.splitOn`, which
does not reduce inside the kernel). -/
def splitOnDash : List Char → List (List Char)
  | [] => [[]]
  | a :: rest =>
    match splitOnDash rest with
    | [] => [[a]]
    | g :: gs => if a = '-' then [] :: g :: gs else (a :: g) :: gs

/-- The whitespace stripping of Python `int(str)` (ASCII whitespace). -/
def pyStripChars (cs : List Char) : List Char :=
  ((cs.dropWhile Char.isWhitespace).reverse.dropWhile Char.isWhitespace).reverse

/-- Digit-run parser of Python `int`: decimal digits with single underscores
allowed between digits only. -/
def pyDigitsGo (acc : Nat) : List Char → Option Nat
  | [] => some acc
  | '_' :: c :: cs => if c.isDigit then pyDigitsGo (acc * 10 + (c.toNat - 48)) cs else none
  | ['_'] => none
  | c :: cs => if c.isDigit then pyDigitsGo (acc * 10 + (c.toNat - 48)) cs else none

/-- A nonempty digit run (first character must be a digit). -/
def pyDigits : List Char → Option Nat
  | [] => none
  | c :: cs => if c.isDigit then pyDigitsGo (c.toNat - 48) cs else none

/-- Python `int(s)` on a character sequence: strip whitespace, optional
sign, digit run. -/
def pyIntChars (cs : List Char) : Option Int :=
  match pyStripChars cs with
  | '+' :: cs => (pyDigits cs).map (fun n => (n : Int))
  | '-' :: cs => (pyDigits cs).map (fun n => -(n : Int))
  | cs => (pyDigits cs).map (fun n => (n : Int))

/-- Python `int(s)`. -/
def pyInt (s : String) : Option Int := pyIntChars s.data

/-- Gregorian leap-year rule (as used by `calendar.monthrange`). -/
def isLeap (y : Int) : Bool := (y % 4 == 0) && (!(y % 100 == 0) || (y % 400 == 0))

/-- `monthrange(year, month)[1]`. -/
def daysInMonth (y m : Int) : Int :=
  if m = 2 then (if isLeap y then 29 else 28)
  else if m = 4 ∨ m = 6 ∨ m = 9 ∨ m = 11 then 30
  else 31

/-- Days since 1970-01-01 of a proleptic-Gregorian civil date (the calendar
`datetime` uses), by the standard era/year-of-era decomposition. -/
def daysFromCivil (y m d : Int) : Int :=
  let y2 := if m ≤ 2 then y - 1 else y
  let era := y2.fdiv 400
  let yoe := y2 - era * 400
  let mp := (m + 9) % 12
  let doy := (153 * mp + 2).fdiv 5 + d - 1
  let doe := yoe * 365 + yoe.fdiv 4 - yoe.fdiv 100 + doy
  era * 146097 + doe - 719468

/-- Epoch seconds of midnight on a civil date. -/
def dtSecs (y m d : Int) : Int := daysFromCivil y m d * 86400

/-- `parse_month(month_str)`: split on `-` (exactly two fields or the tuple
unpacking raises), Python `int()` on both, `datetime(year, month, 1)`
(raises unless `1 ≤ year ≤ 9999` and `1 ≤ month ≤ 12`), then add the month's
day count — which overflows past `datetime.max` exactly for 9999-12.
`none` is the propagated `ValueError`/`OverflowError`. -/
def parse_month (month_str : String) : Option (Int × Int) :=
  match splitOnDash month_str.data with
  | [year_s, month_s] =>
    match pyIntChars year_s, pyIntChars month_s with
    | some year, some month =>
      if 1 ≤ year ∧ year ≤ 9999 ∧ 1 ≤ month ∧ month ≤ 12 then
        if year = 9999 ∧ month = 12 then none
        else some (dtSecs year month 1, dtSecs year month 1 + daysInMonth year month * 86400)
      else none
    | _, _ => none
  | _ => none

/-- Modelled from the spec's words for the comparison in C4: the input can
be split into a 4-digit year and a 1-2 digit month. -/
def specMonthWellFormed (s : String) : Bool :=
  match splitOnDash s.data with
  | [ys, ms] =>
    (ys.length == 4) && ys.all Char.isDigit &&
      ((ms.length == 1) || (ms.length == 2)) && ms.all Char.isDigit
  | _ => false

/-! ## Helper lemmas about the generators -/

theorem mkUser_email_blank_of_rate_one {uid : Nat} {mS mE : Int} {rs : PQ} {t t' : Tape}
    {u : PUser} {m : UserMeta}
    (h : mkUser uid mS mE 1 rs t = some ((u, m), t')) : u.email = "" := by
  unfold mkUser at h
  cases h₁ : pychoice FIRST_NAMES t with
  | none => rw [h₁] at h; simp only [Option.bind_eq_bind, Option.none_bind] at h; exact Option.noConfusion h
  | some p₁ =>
    obtain ⟨fn, t₁⟩ := p₁
    rw [h₁] at h
    simp only [Option.bind_eq_bind, Option.some_bind] at h
    cases h₂ : pychoice LAST_NAMES t₁ with
    | none => rw [h₂] at h; simp only [Option.bind_eq_bind, Option.none_bind] at h; exact Option.noConfusion h
    | some p₂ =>
      obtain ⟨ln, t₂⟩ := p₂
      rw [h₂] at h
      simp only [Option.some_bind] at h
      cases h₃ : randint 10 9999 t₂ with
      | none => rw [h₃] at h; simp only [Option.bind_eq_bind, Option.none_bind] at h; exact Option.noConfusion h
      | some p₃ =>
        obtain ⟨mailNum, t₃⟩ := p₃
        rw [h₃] at h
        simp only [Option.some_bind] at h
        cases h₄ : rand_dt mS mE t₃ with
        | none => rw [h₄] at h; simp only [Option.bind_eq_bind, Option.none_bind] at h; exact Option.noConfusion h
        | some p₄ =>
          obtain ⟨sdt, t₄⟩ := p₄
          rw [h₄] at h
          simp only [Option.some_bind] at h
          cases h₅ : randFloat t₄ with
          | none => rw [h₅] at h; simp only [Option.bind_eq_bind, Option.none_bind] at h; exact Option.noConfusion h
          | some p₅ =>
            obtain ⟨uS, t₅⟩ := p₅
            rw [h₅] at h
            simp only [Option.some_bind] at h
            cases h₆ : randFloat t₅ with
            | none => rw [h₆] at h; simp only [Option.bind_eq_bind, Option.none_bind] at h; exact Option.noConfusion h
            | some p₆ =>
              obtain ⟨uM, t₆⟩ := p₆
              rw [h₆] at h
              simp only [Option.some_bind] at h
              cases h₇ : pychoices (COUNTRY_WEIGHTS.map Prod.fst) (COUNTRY_WEIGHTS.map Prod.snd) t₆ with
              | none => rw [h₇] at h; simp only [Option.bind_eq_bind, Option.none_bind] at h; exact Option.noConfusion h
              | some p₇ =>
                obtain ⟨cty, t₇⟩ := p₇
                rw [h₇] at h
                simp only [Option.some_bind] at h
                cases h₈ : randFloat t₇ with
                | none => rw [h₈] at h; simp only [Option.bind_eq_bind, Option.none_bind] at h; exact Option.noConfusion h
                | some p₈ =>
                  obtain ⟨uA, t₈⟩ := p₈
                  rw [h₈] at h
                  simp only [Option.some_bind, Option.some.injEq, Prod.mk.injEq] at h
                  obtain ⟨⟨hu, hm⟩, ht⟩ := h
                  subst hu
                  have : uM < 1 := randFloat_lt_one h₆
                  simp [this]

theorem temporalFold_nil_eligible (metas : List UserMeta) (mS : Int) (txns : List PTxn)
    (idxs : List Nat) (rng : Tape) :
    temporalFold metas mS [] txns idxs rng = some (txns, rng) := by
  induction idxs generalizing txns rng with
  | nil => rfl
  | cons i rest ih => simp [temporalFold, temporalStep, ih]

/-! ## Claim C3 -/

/-- **C3, counterexample.**  The claim asserts that for every `n_users ≥ 1`
and every `null_email_rate ∈ [0, 1]` the output of `generate_users` contains
at least one user with an empty email.  Concretely at `n_users = 1`,
`null_email_rate = 1/100` and a run whose two anomaly coins draw `0.5`, the
produced population has zero empty emails: the user generator flips an
independent per-user coin and applies no `max(1, rate × N)` floor (that floor
exists only in the reporting of targeted counts in `main`). -/
theorem C3_counterexample :
    (1 : Nat) ≥ 1 ∧ (0 : PQ) ≤ 1/100 ∧ (1/100 : PQ) ≤ 1 ∧
      (generate_users 1 0 2678400 (1/100) (1/100) [0, 0, 0, 0, 500000, 500000, 0, 0]).map
        (fun r => (r.1.1.map PUser.email).count "") = some 0 := by
  refine ⟨le_refl 1, by decide, by decide, ?_⟩
  rfl

/-- **C3, amended.**  Missing emails are injected by independent per-user
coin flips with no `max(1, rate × N)` floor, so a run may contain zero empty
emails; at least one empty email is guaranteed only in the degenerate case
`null_email_rate = 1` (every coin draw lies below 1), for any `n_users ≥ 1`. -/
theorem C3_amended (n_users : Nat) (mS mE : Int) (rs : PQ) (t t' : Tape)
    (us : List PUser) (ms : List UserMeta)
    (hn : 1 ≤ n_users)
    (h : generate_users n_users mS mE 1 rs t = some ((us, ms), t')) :
    ∃ u ∈ us, u.email = "" := by
  cases n_users with
  | zero => omega
  | succ c =>
    unfold generate_users genUsersFrom at h
    cases h₁ : mkUser 1 mS mE 1 rs t with
    | none => rw [h₁] at h; simp only [Option.bind_eq_bind, Option.none_bind] at h; exact Option.noConfusion h
    | some p₁ =>
      obtain ⟨⟨u, m⟩, t₁⟩ := p₁
      rw [h₁] at h
      simp only [Option.bind_eq_bind, Option.some_bind] at h
      cases h₂ : genUsersFrom mS mE 1 rs 2 c t₁ with
      | none => rw [h₂] at h; simp only [Option.bind_eq_bind, Option.none_bind] at h; exact Option.noConfusion h
      | some p₂ =>
        obtain ⟨⟨us', ms'⟩, t₂⟩ := p₂
        rw [h₂] at h
        simp only [Option.some_bind, Option.some.injEq, Prod.mk.injEq] at h
        obtain ⟨⟨hus, hms⟩, ht⟩ := h
        subst hus
        exact ⟨u, List.mem_cons_self u us', mkUser_email_blank_of_rate_one h₁⟩

/-- **C3, witness for the amended theorem** at `n_users = 1`,
`null_email_rate = 1`. -/
theorem C3_amended_witness :
    generate_users 1 0 2678400 1 0 [0, 0, 0, 0, 0, 0, 0, 0]
        = some (([⟨1, "Alex", "Martin", "", "FR", some 0⟩],
                 [⟨some 0, "FR", true⟩]), []) ∧
      ∃ u ∈ [(⟨1, "Alex", "Martin", "", "FR", some 0⟩ : PUser)], u.email = "" :=
  ⟨rfl, C3_amended 1 0 2678400 0 [0, 0, 0, 0, 0, 0, 0, 0] []
      [⟨1, "Alex", "Martin", "", "FR", some 0⟩] [⟨some 0, "FR", true⟩] (le_refl 1) rfl⟩

/-! ## Claim C4 -/

/-- **C4, counterexample.**  The claim says `parse_month` fails exactly when
the input cannot be split into a 4-digit year and a 1-2 digit month.  The
input `"123-5"` has a 3-digit year, yet `parse_month` succeeds (Python
accepts `datetime(123, 5, 1)`), so the failure condition is not the spec's
4-digit predicate. -/
theorem C4_counterexample :
    (parse_month "123-5").isSome = true ∧ specMonthWellFormed "123-5" = false := by
  constructor
  · rfl
  · rfl

/-- **C4, amended.**  `parse_month` fails exactly when the input is not two
`-`-separated fields each accepted by Python `int()` as a year `y` and month
`m` with `1 ≤ y ≤ 9999` and `1 ≤ m ≤ 12` (with 9999-12 additionally
overflowing `datetime.max`); on success it returns the half-open interval
starting at midnight on day 1 of the month whose length is the month's
actual day count. -/
theorem C4_amended (s : String) :
    (parse_month s).isSome ↔
      ∃ ys ms y m, splitOnDash s.data = [ys, ms] ∧ pyIntChars ys = some y ∧
        pyIntChars ms = some m ∧
        1 ≤ y ∧ y ≤ 9999 ∧ 1 ≤ m ∧ m ≤ 12 ∧ ¬(y = 9999 ∧ m = 12) ∧
        parse_month s = some (dtSecs y m 1, dtSecs y m 1 + daysInMonth y m * 86400) := by
  constructor
  · intro h
    unfold parse_month at h
    cases hsp : splitOnDash s.data with
    | nil => rw [hsp] at h; simp at h
    | cons ys rest =>
      cases rest with
      | nil => rw [hsp] at h; simp at h
      | cons ms rest₂ =>
        cases rest₂ with
        | cons z zs => rw [hsp] at h; simp at h
        | nil =>
          rw [hsp] at h
          dsimp only at h
          cases hy : pyIntChars ys with
          | none => rw [hy] at h; simp at h
          | some y =>
            rw [hy] at h
            cases hm : pyIntChars ms with
            | none => rw [hm] at h; simp at h
            | some m =>
              rw [hm] at h
              dsimp only at h
              split at h
              · rename_i hrange
                split at h
                · simp at h
                · rename_i hovf
                  refine ⟨ys, ms, y, m, rfl, hy, hm, hrange.1, hrange.2.1,
                    hrange.2.2.1, hrange.2.2.2, hovf, ?_⟩
                  simp [parse_month, hsp, hy, hm, hrange.1, hrange.2.1,
                    hrange.2.2.1, hrange.2.2.2, hovf]
              · simp at h
  · rintro ⟨ys, ms, y, m, _, _, _, _, _, _, _, _, hp⟩
    simp [hp]

/-- **C4, witness for the amended theorem** at the input `"2026-01"`. -/
theorem C4_amended_witness : (parse_month "2026-01").isSome :=
  (C4_amended "2026-01").mpr
    ⟨"2026".data, "01".data, 2026, 1, rfl, rfl, rfl, by norm_num, by norm_num,
     by norm_num, by norm_num, by simp, rfl⟩

/-! ## Claim C10 -/

/-- **C10, confirmed.**  When no user has a known signup strictly later than
window-start plus 3 days (the eligible set of the temporal-violation pass is
empty), the pass leaves every transaction unchanged and raises nothing, even
though its targeted count `max(1, int(n_txns * rate))` is at least 1 (the
loop still runs over the sampled indices but its body is guarded by
`if eligible_users:`). -/
theorem C10_temporal_pass_noop (n_txns n_users : Nat) (mS : Int)
    (metas : List UserMeta) (rate : PQ) (txns out : List PTxn) (rng rng' : Tape)
    (he : eligibleUsers metas n_users mS = [])
    (h : applyTemporalPass n_txns n_users mS metas rate txns rng = some (out, rng')) :
    out = txns ∧ 1 ≤ max 1 (intFloorNat ((n_txns : PQ) * rate)) := by
  refine ⟨?_, Nat.le_max_left 1 _⟩
  unfold applyTemporalPass at h
  dsimp only at h
  rw [he] at h
  cases hs : pysample (List.range n_txns)
      (min (max 1 (intFloorNat ((n_txns : PQ) * rate))) n_txns) rng with
  | none => rw [hs] at h; simp at h
  | some p =>
    obtain ⟨idxs, rng₁⟩ := p
    rw [hs] at h
    simp only [Option.bind_eq_bind, Option.some_bind] at h
    rw [temporalFold_nil_eligible] at h
    simp only [Option.some.injEq, Prod.mk.injEq] at h
    exact h.1.symm

/-- **C10, witness**: a one-user population signed up at window start (hence
no eligible user) and a one-transaction batch pass through the temporal pass
unchanged. -/
theorem C10_temporal_pass_noop_witness :
    eligibleUsers [⟨some 0, "PT", true⟩] 1 0 = [] ∧
      applyTemporalPass 1 1 0 [⟨some 0, "PT", true⟩] 1
          [⟨"t0", 1, 2, some 5, "EUR", "completed", 100⟩] [0]
        = some ([⟨"t0", 1, 2, some 5, "EUR", "completed", 100⟩], []) ∧
      ([(⟨"t0", 1, 2, some 5, "EUR", "completed", 100⟩ : PTxn)]
          = [⟨"t0", 1, 2, some 5, "EUR", "completed", 100⟩] ∧
        1 ≤ max 1 (intFloorNat ((1 : PQ) * 1))) :=
  ⟨rfl, rfl, C10_temporal_pass_noop 1 1 0 [⟨some 0, "PT", true⟩] 1 _ _ [0] [] rfl rfl⟩

/-! ## Receiver distinctness and lifecycle bound of the clean batch -/

theorem retryReceiver_ne {sender n : Nat} {t t' : Tape} {r : Nat}
    (h : retryReceiver sender n t = some (r, t')) : r ≠ sender := by
  induction t with
  | nil => simp [retryReceiver] at h
  | cons v t ih =>
    simp only [retryReceiver] at h
    split at h
    · simp at h
    · split at h
      · exact ih h
      · simp only [Option.some.injEq, Prod.mk.injEq] at h
        obtain ⟨rfl, rfl⟩ := h
        assumption

theorem sameCountryUsers_ne {metas : List UserMeta} {n_users sender x : Nat}
    (hx : x ∈ sameCountryUsers metas n_users sender) : x ≠ sender := by
  simp only [sameCountryUsers, List.mem_filterMap, List.mem_range] at hx
  obtain ⟨j, hj, hfx⟩ := hx
  split at hfx
  · rename_i hcond
    obtain rfl := Option.some.inj hfx
    exact hcond.2
  · exact absurd hfx (by simp)

theorem pick_receiver_ne {metas : List UserMeta} {n_users sender : Nat} {t t' : Tape}
    {r : Nat} (h : pick_receiver metas n_users sender t = some (r, t')) : r ≠ sender := by
  unfold pick_receiver at h
  cases hrf : randFloat t with
  | none => rw [hrf] at h; simp at h
  | some p =>
    obtain ⟨u, t₁⟩ := p
    rw [hrf] at h
    dsimp only at h
    split at h
    · cases hsc : sameCountryUsers metas n_users sender with
      | nil => rw [hsc] at h; exact retryReceiver_ne h
      | cons x xs =>
        rw [hsc] at h
        have hmem := pychoice_mem h
        rw [← hsc] at hmem
        exact sameCountryUsers_ne hmem
    · exact retryReceiver_ne h

theorem le_startDtOf_sender (mS : Int) {so : Option Int} (ro : Option Int) {s : Int}
    (hs : so = some s) : s ≤ startDtOf mS so ro := by
  subst hs
  cases ro with
  | none => exact le_max_right mS s
  | some v => exact le_trans (le_max_right mS s) (le_max_left _ _)

theorem le_startDtOf_receiver (mS : Int) (so : Option Int) {ro : Option Int} {s : Int}
    (hs : ro = some s) : s ≤ startDtOf mS so ro := by
  subst hs
  cases so with
  | none => exact le_max_right mS s
  | some v => exact le_max_right (max mS v) s

/-- Every transaction of the clean batch separates sender from receiver and
respects the known signup lower bounds. -/
theorem mkCleanTxn_props {metas : List UserMeta} {n_users : Nat} {mS mE : Int}
    {fu : List Nat} {days : Nat} {dps : List PQ} {rng ut rng' ut' : Tape} {txn : PTxn}
    (h : mkCleanTxn metas n_users mS mE fu days dps rng ut = some (txn, rng', ut')) :
    txn.sender_user_id ≠ txn.receiver_user_id ∧
      (∀ s, (mget metas txn.sender_user_id).signup_dt = some s → s ≤ txn.created_at) ∧
      (∀ s, (mget metas txn.receiver_user_id).signup_dt = some s → s ≤ txn.created_at) ∧
      pyIsNullStr txn.transaction_id = false := by
  unfold mkCleanTxn at h
  cases h₁ : pick_sender metas fu rng with
  | none => rw [h₁] at h; simp only [Option.bind_eq_bind, Option.none_bind] at h; exact Option.noConfusion h
  | some p₁ =>
    obtain ⟨sender_id, r₁⟩ := p₁
    rw [h₁] at h
    simp only [Option.bind_eq_bind, Option.some_bind] at h
    cases h₂ : pick_receiver metas n_users sender_id r₁ with
    | none => rw [h₂] at h; simp only [Option.bind_eq_bind, Option.none_bind] at h; exact Option.noConfusion h
    | some p₂ =>
      obtain ⟨receiver_id, r₂⟩ := p₂
      rw [h₂] at h
      simp only [Option.some_bind] at h
      cases h₃ : pick_day_index dps days r₂ with
      | none => rw [h₃] at h; simp only [Option.bind_eq_bind, Option.none_bind] at h; exact Option.noConfusion h
      | some p₃ =>
        obtain ⟨day_idx, r₃⟩ := p₃
        rw [h₃] at h
        simp only [Option.some_bind] at h
        cases h₄ : random_dt_in_day mS mE day_idx r₃ with
        | none => rw [h₄] at h; simp only [Option.bind_eq_bind, Option.none_bind] at h; exact Option.noConfusion h
        | some p₄ =>
          obtain ⟨created₀, r₄⟩ := p₄
          rw [h₄] at h
          simp only [Option.some_bind] at h
          split at h
          · rename_i hlt
            cases h₅ : rand_dt (startDtOf mS (mget metas sender_id).signup_dt
                (mget metas receiver_id).signup_dt) mE r₄ with
            | none => rw [h₅] at h; simp only [Option.bind_eq_bind, Option.none_bind] at h; exact Option.noConfusion h
            | some p₅ =>
              obtain ⟨created, r₅⟩ := p₅
              rw [h₅] at h
              simp only [Option.some_bind] at h
              cases h₆ : pyuniform (3/10) (22/10) r₅ with
              | none => rw [h₆] at h; simp only [Option.bind_eq_bind, Option.none_bind] at h; exact Option.noConfusion h
              | some p₆ =>
                obtain ⟨ue, r₆⟩ := p₆
                rw [h₆] at h
                simp only [Option.some_bind] at h
                cases h₇ : pychoices CURRENCIES [85/100, 10/100, 5/100] r₆ with
                | none => rw [h₇] at h; simp only [Option.bind_eq_bind, Option.none_bind] at h; exact Option.noConfusion h
                | some p₇ =>
                  obtain ⟨cur, r₇⟩ := p₇
                  rw [h₇] at h
                  simp only [Option.some_bind] at h
                  cases h₈ : pychoices ["completed", "pending", "failed"]
                      [90/100, 7/100, 3/100] r₇ with
                  | none => rw [h₈] at h; simp only [Option.bind_eq_bind, Option.none_bind] at h; exact Option.noConfusion h
                  | some p₈ =>
                    obtain ⟨st, r₈⟩ := p₈
                    rw [h₈] at h
                    simp only [Option.some_bind] at h
                    cases h₉ : uuid4 ut with
                    | none => rw [h₉] at h; simp only [Option.bind_eq_bind, Option.none_bind] at h; exact Option.noConfusion h
                    | some p₉ =>
                      obtain ⟨tid, u₁⟩ := p₉
                      rw [h₉] at h
                      simp only [Option.some_bind, Option.some.injEq, Prod.mk.injEq] at h
                      obtain ⟨rfl, -, -⟩ := h
                      have hge := rand_dt_ge h₅
                      refine ⟨Ne.symm (pick_receiver_ne h₂), ?_, ?_,
                        Bool.eq_false_iff.mpr (uuid4_not_blank h₉)⟩
                      · intro s hs
                        exact le_trans (le_startDtOf_sender mS _ hs) hge
                      · intro s hs
                        exact le_trans (le_startDtOf_receiver mS _ hs) hge
          · rename_i hlt
            cases h₆ : pyuniform (3/10) (22/10) r₄ with
            | none => rw [h₆] at h; simp only [Option.bind_eq_bind, Option.none_bind] at h; exact Option.noConfusion h
            | some p₆ =>
              obtain ⟨ue, r₆⟩ := p₆
              rw [h₆] at h
              simp only [Option.some_bind] at h
              cases h₇ : pychoices CURRENCIES [85/100, 10/100, 5/100] r₆ with
              | none => rw [h₇] at h; simp only [Option.bind_eq_bind, Option.none_bind] at h; exact Option.noConfusion h
              | some p₇ =>
                obtain ⟨cur, r₇⟩ := p₇
                rw [h₇] at h
                simp only [Option.some_bind] at h
                cases h₈ : pychoices ["completed", "pending", "failed"]
                    [90/100, 7/100, 3/100] r₇ with
                | none => rw [h₈] at h; simp only [Option.bind_eq_bind, Option.none_bind] at h; exact Option.noConfusion h
                | some p₈ =>
                  obtain ⟨st, r₈⟩ := p₈
                  rw [h₈] at h
                  simp only [Option.some_bind] at h
                  cases h₉ : uuid4 ut with
                  | none => rw [h₉] at h; simp only [Option.bind_eq_bind, Option.none_bind] at h; exact Option.noConfusion h
                  | some p₉ =>
                    obtain ⟨tid, u₁⟩ := p₉
                    rw [h₉] at h
                    simp only [Option.some_bind, Option.some.injEq, Prod.mk.injEq] at h
                    obtain ⟨rfl, -, -⟩ := h
                    have hge : startDtOf mS (mget metas sender_id).signup_dt
                        (mget metas receiver_id).signup_dt ≤ created₀ := le_of_not_lt hlt
                    refine ⟨Ne.symm (pick_receiver_ne h₂), ?_, ?_,
                      Bool.eq_false_iff.mpr (uuid4_not_blank h₉)⟩
                    · intro s hs
                      exact le_trans (le_startDtOf_sender mS _ hs) hge
                    · intro s hs
                      exact le_trans (le_startDtOf_receiver mS _ hs) hge

/-- The whole clean batch satisfies the per-transaction properties. -/
theorem cleanTxns_sound {metas : List UserMeta} {n_users : Nat} {mS mE : Int}
    {fu : List Nat} {days : Nat} {dps : List PQ} {c : Nat} {rng ut rng' ut' : Tape}
    {txns : List PTxn}
    (h : cleanTxns metas n_users mS mE fu days dps c rng ut = some (txns, rng', ut')) :
    ∀ txn ∈ txns,
      txn.sender_user_id ≠ txn.receiver_user_id ∧
        (∀ s, (mget metas txn.sender_user_id).signup_dt = some s → s ≤ txn.created_at) ∧
        (∀ s, (mget metas txn.receiver_user_id).signup_dt = some s → s ≤ txn.created_at) ∧
        pyIsNullStr txn.transaction_id = false := by
  induction c generalizing rng ut txns rng' ut' with
  | zero =>
    simp only [cleanTxns, Option.some.injEq, Prod.mk.injEq] at h
    obtain ⟨rfl, -, -⟩ := h
    simp
  | succ c ih =>
    simp only [cleanTxns] at h
    cases h₁ : mkCleanTxn metas n_users mS mE fu days dps rng ut with
    | none => rw [h₁] at h; simp only [Option.bind_eq_bind, Option.none_bind] at h; exact Option.noConfusion h
    | some p₁ =>
      obtain ⟨txn, rng₁, ut₁⟩ := p₁
      rw [h₁] at h
      simp only [Option.bind_eq_bind, Option.some_bind] at h
      cases h₂ : cleanTxns metas n_users mS mE fu days dps c rng₁ ut₁ with
      | none => rw [h₂] at h; simp only [Option.bind_eq_bind, Option.none_bind] at h; exact Option.noConfusion h
      | some p₂ =>
        obtain ⟨txns', rng₂, ut₂⟩ := p₂
        rw [h₂] at h
        simp only [Option.some_bind, Option.some.injEq, Prod.mk.injEq] at h
        obtain ⟨rfl, -, -⟩ := h
        intro x hx
        rcases List.mem_cons.mp hx with rfl | hx
        · exact mkCleanTxn_props h₁
        · exact ih h₂ x hx

/-! ## Claims C1, C2, C5 -/

/-- **C1.**  The seeded stream does not determine the output: two runs of
`generate_transactions` with identical parameters and an identical seeded
tape but different `uuid4` entropy (Python's `uuid.uuid4()` reads
`os.urandom`, not the `random` stream seeded in `main`) produce different
`transaction_id` sequences.  The generator is therefore not a function of
the seed and parameters alone, although the module docstring promises
seed-determinism. -/
theorem C1_uuid_entropy_dependence :
    (generate_transactions 1 2 0 2678400 [⟨some 0, "PT", true⟩, ⟨some 345600, "PT", true⟩]
        1 0 0 (List.replicate 20 0) [0]).map (fun r => r.1.map PTxn.transaction_id)
      = some ["uuid-0"] ∧
    (generate_transactions 1 2 0 2678400 [⟨some 0, "PT", true⟩, ⟨some 345600, "PT", true⟩]
        1 0 0 (List.replicate 20 0) [7]).map (fun r => r.1.map PTxn.transaction_id)
      = some ["uuid-7"] ∧
    ("uuid-0" : String) ≠ "uuid-7" :=
  ⟨rfl, rfl, by decide⟩

/-- **C2, counterexample.**  The claim asserts `sender ≠ receiver` in the
final output after all three anomaly passes.  In a concrete run the
temporal-violation pass overwrites the sender of row 0 with the eligible
user 2, who is already the row's receiver, so the final output has a
transaction with `sender_user_id = receiver_user_id = 2`. -/
theorem C2_counterexample :
    (generate_transactions 1 2 0 2678400 [⟨some 0, "PT", true⟩, ⟨some 345600, "PT", true⟩]
        1 0 0 (List.replicate 20 0) [0]).map
      (fun r => r.1.any (fun txn => txn.sender_user_id == txn.receiver_user_id))
      = some true := rfl

/-- **C2, amended.**  `sender_user_id ≠ receiver_user_id` holds for every
transaction of the clean batch (receiver selection never returns the
sender); the temporal-violation pass may overwrite one side with an eligible
user equal to the other side, so the guarantee does not extend to the final
output. -/
theorem C2_clean_sender_ne_receiver (metas : List UserMeta) (n_users : Nat) (mS mE : Int)
    (fu : List Nat) (days : Nat) (dps : List PQ) (c : Nat) (rng ut rng' ut' : Tape)
    (txns : List PTxn)
    (h : cleanTxns metas n_users mS mE fu days dps c rng ut = some (txns, rng', ut')) :
    ∀ txn ∈ txns, txn.sender_user_id ≠ txn.receiver_user_id :=
  fun txn hm => (cleanTxns_sound h txn hm).1

/-- **C2, witness for the amended theorem** on a concrete two-user clean
batch. -/
theorem C2_clean_sender_ne_receiver_witness :
    cleanTxns [⟨some 0, "PT", true⟩, ⟨some 345600, "PT", true⟩] 2 0 2678400
        (featureUsersOf [⟨some 0, "PT", true⟩, ⟨some 345600, "PT", true⟩] 2) 31
        (dayProbsOf 31) 1 (List.replicate 12 0) [0]
      = some ([⟨"uuid-0", 1, 2, some ⟨100, 100⟩, "BTC", "completed", 345600⟩],
              [0, 0, 0], []) ∧
    ∀ txn ∈ [(⟨"uuid-0", 1, 2, some ⟨100, 100⟩, "BTC", "completed", 345600⟩ : PTxn)],
      txn.sender_user_id ≠ txn.receiver_user_id :=
  ⟨rfl,
   C2_clean_sender_ne_receiver [⟨some 0, "PT", true⟩, ⟨some 345600, "PT", true⟩] 2 0 2678400
     (featureUsersOf [⟨some 0, "PT", true⟩, ⟨some 345600, "PT", true⟩] 2) 31
     (dayProbsOf 31) 1 (List.replicate 12 0) [0] [0, 0, 0] []
     [⟨"uuid-0", 1, 2, some ⟨100, 100⟩, "BTC", "completed", 345600⟩] rfl⟩

/-- **C5, confirmed.**  In the clean batch (before any anomaly pass), every
transaction's `created_at` is at least every participant signup that is
known: the generator raises the lower bound to the known signups and
redraws in `[bound, month_end)` whenever the first draw falls below it. -/
theorem C5_clean_lifecycle_bound (metas : List UserMeta) (n_users : Nat) (mS mE : Int)
    (fu : List Nat) (days : Nat) (dps : List PQ) (c : Nat) (rng ut rng' ut' : Tape)
    (txns : List PTxn)
    (h : cleanTxns metas n_users mS mE fu days dps c rng ut = some (txns, rng', ut')) :
    ∀ txn ∈ txns,
      (∀ s, (mget metas txn.sender_user_id).signup_dt = some s → s ≤ txn.created_at) ∧
        (∀ s, (mget metas txn.receiver_user_id).signup_dt = some s → s ≤ txn.created_at) :=
  fun txn hm => ⟨(cleanTxns_sound h txn hm).2.1, (cleanTxns_sound h txn hm).2.2.1⟩

/-- **C5, witness** on a concrete clean batch whose receiver signed up at
`345600`: the produced `created_at` is exactly the raised bound. -/
theorem C5_clean_lifecycle_bound_witness :
    cleanTxns [⟨some 0, "PT", true⟩, ⟨some 345600, "PT", true⟩] 2 0 2678400
        (featureUsersOf [⟨some 0, "PT", true⟩, ⟨some 345600, "PT", true⟩] 2) 31
        (dayProbsOf 31) 1 (List.replicate 12 0) [0]
      = some ([⟨"uuid-0", 1, 2, some ⟨100, 100⟩, "BTC", "completed", 345600⟩],
              [0, 0, 0], []) ∧
    ∀ txn ∈ [(⟨"uuid-0", 1, 2, some ⟨100, 100⟩, "BTC", "completed", 345600⟩ : PTxn)],
      (∀ s, (mget [⟨some 0, "PT", true⟩, ⟨some 345600, "PT", true⟩]
          txn.sender_user_id).signup_dt = some s → s ≤ txn.created_at) ∧
        (∀ s, (mget [⟨some 0, "PT", true⟩, ⟨some 345600, "PT", true⟩]
            txn.receiver_user_id).signup_dt = some s → s ≤ txn.created_at) :=
  ⟨rfl,
   C5_clean_lifecycle_bound [⟨some 0, "PT", true⟩, ⟨some 345600, "PT", true⟩] 2 0 2678400
     (featureUsersOf [⟨some 0, "PT", true⟩, ⟨some 345600, "PT", true⟩] 2) 31
     (dayProbsOf 31) 1 (List.replicate 12 0) [0] [0, 0, 0] []
     [⟨"uuid-0", 1, 2, some ⟨100, 100⟩, "BTC", "completed", 345600⟩] rfl⟩

/-! ## Claim C6: the duplicate-identifier pass -/

theorem dupStep_spec {txns : List PTxn} {idx : Nat} {rng rng' : Tape} {res : List PTxn}
    (h : dupStep txns idx rng = some (res, rng')) :
    ∃ j src, j < idx ∧ txns.get? j = some src ∧
      res = setAt txns idx (fun txn => { txn with transaction_id := src.transaction_id }) := by
  unfold dupStep at h
  cases hr : randrange idx rng with
  | none => rw [hr] at h; simp only [Option.bind_eq_bind, Option.none_bind] at h; exact Option.noConfusion h
  | some p =>
    obtain ⟨j, rng₁⟩ := p
    rw [hr] at h
    simp only [Option.bind_eq_bind, Option.some_bind] at h
    cases hg : txns.get? j with
    | none => rw [hg] at h; simp at h
    | some src =>
      rw [hg] at h
      dsimp only at h
      simp only [Option.some.injEq, Prod.mk.injEq] at h
      exact ⟨j, src, randrange_lt hr, hg, h.1.symm⟩

theorem dupFold_length {txns : List PTxn} {targets : List Nat} {rng rng' : Tape}
    {out : List PTxn} (h : dupFold txns targets rng = some (out, rng')) :
    out.length = txns.length := by
  induction targets generalizing txns rng with
  | nil =>
    simp only [dupFold, Option.some.injEq, Prod.mk.injEq] at h
    rw [← h.1]
  | cons i rest ih =>
    simp only [dupFold] at h
    cases h₁ : dupStep txns i rng with
    | none => rw [h₁] at h; simp only [Option.bind_eq_bind, Option.none_bind] at h; exact Option.noConfusion h
    | some p =>
      obtain ⟨txns₁, rng₁⟩ := p
      rw [h₁] at h
      simp only [Option.bind_eq_bind, Option.some_bind] at h
      obtain ⟨j, src, hj, hg, rfl⟩ := dupStep_spec h₁
      rw [ih h]
      exact length_setAt txns i _

theorem dupFold_get?_zero {txns : List PTxn} {targets : List Nat} {rng rng' : Tape}
    {out : List PTxn} (hpos : ∀ i ∈ targets, 1 ≤ i)
    (h : dupFold txns targets rng = some (out, rng')) :
    out.get? 0 = txns.get? 0 := by
  induction targets generalizing txns rng with
  | nil =>
    simp only [dupFold, Option.some.injEq, Prod.mk.injEq] at h
    rw [← h.1]
  | cons i rest ih =>
    simp only [dupFold] at h
    cases h₁ : dupStep txns i rng with
    | none => rw [h₁] at h; simp only [Option.bind_eq_bind, Option.none_bind] at h; exact Option.noConfusion h
    | some p =>
      obtain ⟨txns₁, rng₁⟩ := p
      rw [h₁] at h
      simp only [Option.bind_eq_bind, Option.some_bind] at h
      obtain ⟨j, src, hj, hg, rfl⟩ := dupStep_spec h₁
      rw [ih (fun x hx => hpos x (List.mem_cons_of_mem i hx)) h]
      exact get?_setAt_of_ne txns _ (by
        have := hpos i (List.mem_cons_self i rest)
        omega)

theorem dupFold_creates_dup {txns : List PTxn} {targets : List Nat} {rng rng' : Tape}
    {out : List PTxn} (hne : targets ≠ [])
    (hin : ∀ i ∈ targets, i < txns.length)
    (h : dupFold txns targets rng = some (out, rng')) :
    ∃ i j ti tj, j < i ∧ out.get? i = some ti ∧ out.get? j = some tj ∧
      ti.transaction_id = tj.transaction_id := by
  induction targets generalizing txns rng with
  | nil => exact absurd rfl hne
  | cons i rest ih =>
    simp only [dupFold] at h
    cases h₁ : dupStep txns i rng with
    | none => rw [h₁] at h; simp only [Option.bind_eq_bind, Option.none_bind] at h; exact Option.noConfusion h
    | some p =>
      obtain ⟨txns₁, rng₁⟩ := p
      rw [h₁] at h
      simp only [Option.bind_eq_bind, Option.some_bind] at h
      obtain ⟨j, src, hj, hg, rfl⟩ := dupStep_spec h₁
      cases rest with
      | cons r rs =>
        refine ih (by simp) (fun x hx => ?_) h
        rw [length_setAt]
        exact hin x (List.mem_cons_of_mem i hx)
      | nil =>
        simp only [dupFold, Option.some.injEq, Prod.mk.injEq] at h
        obtain ⟨rfl, -⟩ := h
        have hi : i < txns.length := hin i (List.mem_cons_self i [])
        cases hgi : txns.get? i with
        | none =>
          rw [List.get?_eq_none] at hgi
          omega
        | some a =>
          refine ⟨i, j, { a with transaction_id := src.transaction_id }, src,
            hj, get?_setAt_self _ hgi, ?_, rfl⟩
          rw [get?_setAt_of_ne txns _ (by omega)]
          exact hg

/-- **C6, counterexample.**  The claim says the pass selects
`max(1, n_txns * dup_id_rate)` target indices.  At `n_txns = 3` and
`dup_id_rate = 1` the claimed count is 3, but only `n_txns - 1 = 2` rows are
available, and the code selects `min(max(1, int(n*rate)), n_txns - 1) = 2`
targets. -/
theorem C6_counterexample :
    (pysample (List.range' 1 2) (dupTargetCount 3 1) [0, 0]).map (fun p => p.1.length)
      = some 2 ∧
    max 1 (intFloorNat ((3 : PQ) * 1)) = 3 ∧
    dupTargetCount 3 1 ≠ max 1 (intFloorNat ((3 : PQ) * 1)) :=
  ⟨rfl, by decide, by decide⟩

/-- **C6, amended.**  When `n_txns > 2` the duplicate-identifier pass
selects `min(max(1, int(n_txns * dup_id_rate)), n_txns - 1)` distinct target
indices, all within rows `1..n_txns-1`, and copies each target's
`transaction_id` from a row of strictly smaller index; row 0 is never
modified, and for `n_txns ≥ 3` (any positive rate) the result contains a
`transaction_id` occurring in at least two distinct rows.  (For
`n_txns ≤ 2` the pass does nothing.) -/
theorem C6_dup_pass (n_txns : Nat) (dup_id_rate : PQ) (txns : List PTxn)
    (targets : List Nat) (rng rng₁ rng₂ : Tape) (out : List PTxn)
    (hn : 3 ≤ n_txns) (hlen : txns.length = n_txns)
    (hs : pysample (List.range' 1 (n_txns - 1)) (dupTargetCount n_txns dup_id_rate) rng
        = some (targets, rng₁))
    (hf : dupFold txns targets rng₁ = some (out, rng₂)) :
    applyDupPass n_txns dup_id_rate txns rng = some (out, rng₂) ∧
    targets.length = dupTargetCount n_txns dup_id_rate ∧
    (∀ i ∈ targets, 1 ≤ i ∧ i < n_txns) ∧
    out.get? 0 = txns.get? 0 ∧
    ∃ i j ti tj, j < i ∧ out.get? i = some ti ∧ out.get? j = some tj ∧
      ti.transaction_id = tj.transaction_id := by
  have hbounds : ∀ i ∈ targets, 1 ≤ i ∧ i < n_txns := by
    intro i hi
    have := pysample_mem hs i hi
    rw [List.mem_range'_1] at this
    omega
  have hcount := pysample_length hs
  have htne : targets ≠ [] := by
    intro hnil
    rw [hnil] at hcount
    simp only [List.length_nil] at hcount
    unfold dupTargetCount at hcount
    omega
  refine ⟨?_, hcount, hbounds, ?_, ?_⟩
  · unfold applyDupPass
    rw [if_pos (by omega)]
    rw [hs]
    simp only [Option.bind_eq_bind, Option.some_bind]
    exact hf
  · exact dupFold_get?_zero (fun i hi => (hbounds i hi).1) hf
  · exact dupFold_creates_dup htne (fun i hi => by rw [hlen]; exact (hbounds i hi).2) hf

/-- **C6, witness** for the amended theorem: a three-transaction batch at
rate `1/100`, where the pass picks target row 1 and copies the id of row 0. -/
theorem C6_dup_pass_witness :
    (3 : Nat) ≤ 3 ∧
    pysample (List.range' 1 2) (dupTargetCount 3 (1/100)) [0, 0] = some ([1], [0]) ∧
    dupFold [⟨"a", 1, 2, none, "BTC", "completed", 0⟩,
             ⟨"b", 2, 1, none, "EUR", "pending", 1⟩,
             ⟨"c", 1, 2, none, "USD", "failed", 2⟩] [1] [0]
      = some ([⟨"a", 1, 2, none, "BTC", "completed", 0⟩,
               ⟨"a", 2, 1, none, "EUR", "pending", 1⟩,
               ⟨"c", 1, 2, none, "USD", "failed", 2⟩], []) ∧
    (applyDupPass 3 (1/100)
        [⟨"a", 1, 2, none, "BTC", "completed", 0⟩,
         ⟨"b", 2, 1, none, "EUR", "pending", 1⟩,
         ⟨"c", 1, 2, none, "USD", "failed", 2⟩] [0, 0]
       = some ([⟨"a", 1, 2, none, "BTC", "completed", 0⟩,
                ⟨"a", 2, 1, none, "EUR", "pending", 1⟩,
                ⟨"c", 1, 2, none, "USD", "failed", 2⟩], []) ∧
     ([1] : List Nat).length = dupTargetCount 3 (1/100) ∧
     (∀ i ∈ ([1] : List Nat), 1 ≤ i ∧ i < 3) ∧
     ([⟨"a", 1, 2, none, "BTC", "completed", 0⟩,
       ⟨"a", 2, 1, none, "EUR", "pending", 1⟩,
       ⟨"c", 1, 2, none, "USD", "failed", 2⟩] : List PTxn).get? 0
        = ([⟨"a", 1, 2, none, "BTC", "completed", 0⟩,
            ⟨"b", 2, 1, none, "EUR", "pending", 1⟩,
            ⟨"c", 1, 2, none, "USD", "failed", 2⟩] : List PTxn).get? 0 ∧
     ∃ i j ti tj, j < i ∧
       ([⟨"a", 1, 2, none, "BTC", "completed", 0⟩,
         ⟨"a", 2, 1, none, "EUR", "pending", 1⟩,
         ⟨"c", 1, 2, none, "USD", "failed", 2⟩] : List PTxn).get? i = some ti ∧
       ([⟨"a", 1, 2, none, "BTC", "completed", 0⟩,
         ⟨"a", 2, 1, none, "EUR", "pending", 1⟩,
         ⟨"c", 1, 2, none, "USD", "failed", 2⟩] : List PTxn).get? j = some tj ∧
       ti.transaction_id = tj.transaction_id) :=
  ⟨le_refl 3, rfl, rfl,
   C6_dup_pass 3 (1/100)
     [⟨"a", 1, 2, none, "BTC", "completed", 0⟩,
      ⟨"b", 2, 1, none, "EUR", "pending", 1⟩,
      ⟨"c", 1, 2, none, "USD", "failed", 2⟩] [1] [0, 0] [0] []
     [⟨"a", 1, 2, none, "BTC", "completed", 0⟩,
      ⟨"a", 2, 1, none, "EUR", "pending", 1⟩,
      ⟨"c", 1, 2, none, "USD", "failed", 2⟩]
     (le_refl 3) rfl rfl rfl⟩

/-! ## Claim C7: the button-id / event-type relationship -/

theorem mkCleanEvent_button {n_users : Nat} {mS mE : Int} {rng ut rng' ut' : Tape}
    {e : PEvent} (h : mkCleanEvent n_users mS mE rng ut = some (e, rng', ut')) :
    (e.event_type = "button_click" → e.button_id ≠ "") ∧
      (e.button_id ≠ "" → e.event_type = "button_click" ∨ e.event_type = "") := by
  unfold mkCleanEvent at h
  cases h₁ : randint 1 n_users rng with
  | none => rw [h₁] at h; simp only [Option.bind_eq_bind, Option.none_bind] at h; exact Option.noConfusion h
  | some p₁ =>
    obtain ⟨uid, r₁⟩ := p₁
    rw [h₁] at h
    simp only [Option.bind_eq_bind, Option.some_bind] at h
    cases h₂ : pychoice EVENT_TYPES r₁ with
    | none => rw [h₂] at h; simp only [Option.bind_eq_bind, Option.none_bind] at h; exact Option.noConfusion h
    | some p₂ =>
      obtain ⟨etype, r₂⟩ := p₂
      rw [h₂] at h
      simp only [Option.some_bind] at h
      cases h₃ : rand_dt mS mE r₂ with
      | none => rw [h₃] at h; simp only [Option.bind_eq_bind, Option.none_bind] at h; exact Option.noConfusion h
      | some p₃ =>
        obtain ⟨ts, r₃⟩ := p₃
        rw [h₃] at h
        simp only [Option.some_bind] at h
        cases h₄ : uuid4 ut with
        | none => rw [h₄] at h; simp only [Option.bind_eq_bind, Option.none_bind] at h; exact Option.noConfusion h
        | some p₄ =>
          obtain ⟨sid, u₁⟩ := p₄
          rw [h₄] at h
          simp only [Option.some_bind] at h
          cases h₅ : pychoice DEVICES r₃ with
          | none => rw [h₅] at h; simp only [Option.bind_eq_bind, Option.none_bind] at h; exact Option.noConfusion h
          | some p₅ =>
            obtain ⟨dev, r₄⟩ := p₅
            rw [h₅] at h
            simp only [Option.some_bind] at h
            cases h₆ : pychoice OS_LIST r₄ with
            | none => rw [h₆] at h; simp only [Option.bind_eq_bind, Option.none_bind] at h; exact Option.noConfusion h
            | some p₆ =>
              obtain ⟨osn, r₅⟩ := p₆
              rw [h₆] at h
              simp only [Option.some_bind] at h
              cases h₇ : pychoice PAGES r₅ with
              | none => rw [h₇] at h; simp only [Option.bind_eq_bind, Option.none_bind] at h; exact Option.noConfusion h
              | some p₇ =>
                obtain ⟨pg, r₆⟩ := p₇
                rw [h₇] at h
                simp only [Option.some_bind] at h
                split at h
                · rename_i hclick
                  cases h₈ : pychoice BUTTONS r₆ with
                  | none => rw [h₈] at h; simp only [Option.bind_eq_bind, Option.none_bind] at h; exact Option.noConfusion h
                  | some p₈ =>
                    obtain ⟨btn, r₇⟩ := p₈
                    rw [h₈] at h
                    simp only [Option.some_bind] at h
                    cases h₉ : uuid4 u₁ with
                    | none => rw [h₉] at h; simp only [Option.bind_eq_bind, Option.none_bind] at h; exact Option.noConfusion h
                    | some p₉ =>
                      obtain ⟨eid, u₂⟩ := p₉
                      rw [h₉] at h
                      simp only [Option.some_bind] at h
                      cases h₁₀ : make_ip r₇ with
                      | none => rw [h₁₀] at h; simp only [Option.bind_eq_bind, Option.none_bind] at h; exact Option.noConfusion h
                      | some p₁₀ =>
                        obtain ⟨ip, r₈⟩ := p₁₀
                        rw [h₁₀] at h
                        simp only [Option.some_bind, Option.some.injEq, Prod.mk.injEq] at h
                        obtain ⟨rfl, -, -⟩ := h
                        have hb : btn ∈ BUTTONS := pychoice_mem h₈
                        have hbne : btn ≠ "" := by
                          have : ∀ b ∈ BUTTONS, b ≠ "" := by decide
                          exact this btn hb
                        exact ⟨fun _ => hbne, fun _ => Or.inl hclick⟩
                · rename_i hnclick
                  cases h₉ : uuid4 u₁ with
                  | none => rw [h₉] at h; simp only [Option.bind_eq_bind, Option.none_bind] at h; exact Option.noConfusion h
                  | some p₉ =>
                    obtain ⟨eid, u₂⟩ := p₉
                    rw [h₉] at h
                    simp only [Option.some_bind] at h
                    cases h₁₀ : make_ip r₆ with
                    | none => rw [h₁₀] at h; simp only [Option.bind_eq_bind, Option.none_bind] at h; exact Option.noConfusion h
                    | some p₁₀ =>
                      obtain ⟨ip, r₈⟩ := p₁₀
                      rw [h₁₀] at h
                      simp only [Option.some_bind, Option.some.injEq, Prod.mk.injEq] at h
                      obtain ⟨rfl, -, -⟩ := h
                      exact ⟨fun hcl => absurd hcl hnclick, fun hb => absurd rfl hb⟩

theorem cleanEvents_button {n_users : Nat} {mS mE : Int} {c : Nat}
    {rng ut rng' ut' : Tape} {evs : List PEvent}
    (h : cleanEvents n_users mS mE c rng ut = some (evs, rng', ut')) :
    ∀ e ∈ evs, (e.event_type = "button_click" → e.button_id ≠ "") ∧
      (e.button_id ≠ "" → e.event_type = "button_click" ∨ e.event_type = "") := by
  induction c generalizing rng ut evs rng' ut' with
  | zero =>
    simp only [cleanEvents, Option.some.injEq, Prod.mk.injEq] at h
    obtain ⟨rfl, -, -⟩ := h
    simp
  | succ c ih =>
    simp only [cleanEvents] at h
    cases h₁ : mkCleanEvent n_users mS mE rng ut with
    | none => rw [h₁] at h; simp only [Option.bind_eq_bind, Option.none_bind] at h; exact Option.noConfusion h
    | some p₁ =>
      obtain ⟨e, rng₁, ut₁⟩ := p₁
      rw [h₁] at h
      simp only [Option.bind_eq_bind, Option.some_bind] at h
      cases h₂ : cleanEvents n_users mS mE c rng₁ ut₁ with
      | none => rw [h₂] at h; simp only [Option.bind_eq_bind, Option.none_bind] at h; exact Option.noConfusion h
      | some p₂ =>
        obtain ⟨es, rng₂, ut₂⟩ := p₂
        rw [h₂] at h
        simp only [Option.some_bind, Option.some.injEq, Prod.mk.injEq] at h
        obtain ⟨rfl, -, -⟩ := h
        intro x hx
        rcases List.mem_cons.mp hx with rfl | hx
        · exact mkCleanEvent_button h₁
        · exact ih h₂ x hx

/-! ### Preservation of event predicates by the three anomaly passes -/

theorem orphanFold_preserves {n_users : Nat} {events out : List PEvent} {idxs : List Nat}
    {rng rng' : Tape} {P : PEvent → Prop}
    (hf : ∀ e v, P e → P { e with user_id := v })
    (h : orphanFold n_users events idxs rng = some (out, rng'))
    (he : ∀ e ∈ events, P e) : ∀ e ∈ out, P e := by
  induction idxs generalizing events rng with
  | nil =>
    simp only [orphanFold, Option.some.injEq, Prod.mk.injEq] at h
    obtain ⟨rfl, -⟩ := h
    exact he
  | cons i rest ih =>
    simp only [orphanFold] at h
    cases h₁ : randint 1 50 rng with
    | none => rw [h₁] at h; simp only [Option.bind_eq_bind, Option.none_bind] at h; exact Option.noConfusion h
    | some p =>
      obtain ⟨k, rng₁⟩ := p
      rw [h₁] at h
      simp only [Option.bind_eq_bind, Option.some_bind] at h
      exact ih h (setAt_forall he (fun a ha => hf a _ ha))

theorem nullTypeFold_preserves {events : List PEvent} {idxs : List Nat} {P : PEvent → Prop}
    (hf : ∀ e, P e → P { e with event_type := "" })
    (he : ∀ e ∈ events, P e) : ∀ e ∈ nullTypeFold events idxs, P e := by
  induction idxs generalizing events with
  | nil => exact he
  | cons i rest ih =>
    exact ih (setAt_forall he (fun a ha => hf a ha))

theorem oowFold_preserves {mS mE : Int} {events out : List PEvent} {idxs : List Nat}
    {rng rng' : Tape} {P : PEvent → Prop}
    (hf : ∀ e v, P e → P { e with event_ts := v })
    (h : oowFold mS mE events idxs rng = some (out, rng'))
    (he : ∀ e ∈ events, P e) : ∀ e ∈ out, P e := by
  induction idxs generalizing events rng with
  | nil =>
    simp only [oowFold, Option.some.injEq, Prod.mk.injEq] at h
    obtain ⟨rfl, -⟩ := h
    exact he
  | cons i rest ih =>
    simp only [oowFold] at h
    cases h₁ : randFloat rng with
    | none => rw [h₁] at h; simp only [Option.bind_eq_bind, Option.none_bind] at h; exact Option.noConfusion h
    | some p =>
      obtain ⟨c, rng₁⟩ := p
      rw [h₁] at h
      simp only [Option.bind_eq_bind, Option.some_bind] at h
      split at h
      · cases h₂ : rand_dt (mS - 5 * 86400) mS rng₁ with
        | none => rw [h₂] at h; simp only [Option.bind_eq_bind, Option.none_bind] at h; exact Option.noConfusion h
        | some p₂ =>
          obtain ⟨ts, rng₂⟩ := p₂
          rw [h₂] at h
          simp only [Option.some_bind] at h
          exact ih h (setAt_forall he (fun a ha => hf a _ ha))
      · cases h₂ : rand_dt mE (mE + 5 * 86400) rng₁ with
        | none => rw [h₂] at h; simp only [Option.bind_eq_bind, Option.none_bind] at h; exact Option.noConfusion h
        | some p₂ =>
          obtain ⟨ts, rng₂⟩ := p₂
          rw [h₂] at h
          simp only [Option.some_bind] at h
          exact ih h (setAt_forall he (fun a ha => hf a _ ha))

theorem applyOrphanPass_preserves {n_events n_users : Nat} {rate : PQ}
    {events out : List PEvent} {rng rng' : Tape} {P : PEvent → Prop}
    (hf : ∀ e v, P e → P { e with user_id := v })
    (h : applyOrphanPass n_events n_users rate events rng = some (out, rng'))
    (he : ∀ e ∈ events, P e) : ∀ e ∈ out, P e := by
  unfold applyOrphanPass at h
  dsimp only at h
  cases hs : pysample (List.range n_events)
      (min (max 1 (intFloorNat ((n_events : PQ) * rate))) n_events) rng with
  | none => rw [hs] at h; simp only [Option.bind_eq_bind, Option.none_bind] at h; exact Option.noConfusion h
  | some p =>
    obtain ⟨idxs, rng₁⟩ := p
    rw [hs] at h
    simp only [Option.bind_eq_bind, Option.some_bind] at h
    exact orphanFold_preserves hf h he

theorem applyNullTypePass_preserves {n_events : Nat} {rate : PQ}
    {events out : List PEvent} {rng rng' : Tape} {P : PEvent → Prop}
    (hf : ∀ e, P e → P { e with event_type := "" })
    (h : applyNullTypePass n_events rate events rng = some (out, rng'))
    (he : ∀ e ∈ events, P e) : ∀ e ∈ out, P e := by
  unfold applyNullTypePass at h
  dsimp only at h
  cases hs : pysample (List.range n_events)
      (min (max 1 (intFloorNat ((n_events : PQ) * rate))) n_events) rng with
  | none => rw [hs] at h; simp only [Option.bind_eq_bind, Option.none_bind] at h; exact Option.noConfusion h
  | some p =>
    obtain ⟨idxs, rng₁⟩ := p
    rw [hs] at h
    simp only [Option.bind_eq_bind, Option.some_bind, Option.some.injEq,
      Prod.mk.injEq] at h
    obtain ⟨rfl, -⟩ := h
    exact nullTypeFold_preserves hf he

theorem applyOowPass_preserves {n_events : Nat} {mS mE : Int} {rate : PQ}
    {events out : List PEvent} {rng rng' : Tape} {P : PEvent → Prop}
    (hf : ∀ e v, P e → P { e with event_ts := v })
    (h : applyOowPass n_events mS mE rate events rng = some (out, rng'))
    (he : ∀ e ∈ events, P e) : ∀ e ∈ out, P e := by
  unfold applyOowPass at h
  dsimp only at h
  cases hs : pysample (List.range n_events)
      (min (max 1 (intFloorNat ((n_events : PQ) * rate))) n_events) rng with
  | none => rw [hs] at h; simp only [Option.bind_eq_bind, Option.none_bind] at h; exact Option.noConfusion h
  | some p =>
    obtain ⟨idxs, rng₁⟩ := p
    rw [hs] at h
    simp only [Option.bind_eq_bind, Option.some_bind] at h
    exact oowFold_preserves hf h he

/-- **C7, counterexample.**  The claim says that in the final output
`button_id` is non-empty only when `event_type` is `button_click` and empty
otherwise.  In a concrete run the clean event is a `button_click` with
`button_id = "send_now"`, and the missing-event-type pass then blanks its
`event_type`: the final output contains an event with a non-empty
`button_id` whose `event_type` is not the button-click variant. -/
theorem C7_counterexample :
    (generate_app_events 1 1 0 2678400 (1/100) (5/1000) (1/100)
        [0, 2, 0, 0, 0, 0, 0, 0, 0, 0, 0, 0, 0, 0, 0, 0, 0] [0, 1]).map
      (fun r => r.1.any (fun e => !(e.button_id == "") && !(e.event_type == "button_click")))
      = some true := rfl

/-- **C7, amended.**  In the final output of `generate_app_events`, every
event with `event_type = "button_click"` has a non-empty `button_id`, and a
non-empty `button_id` occurs only on events whose `event_type` is
`button_click` or has been blanked to `""` by the missing-event-type pass;
events with any other non-empty `event_type` have an empty `button_id`. -/
theorem C7_button_invariant (n_events n_users : Nat) (mS mE : Int)
    (orphan_user_rate null_event_type_rate out_of_window_rate : PQ)
    (rng ut rng' ut' : Tape) (evs : List PEvent)
    (h : generate_app_events n_events n_users mS mE orphan_user_rate
        null_event_type_rate out_of_window_rate rng ut = some (evs, rng', ut')) :
    ∀ e ∈ evs, (e.event_type = "button_click" → e.button_id ≠ "") ∧
      (e.button_id ≠ "" → e.event_type = "button_click" ∨ e.event_type = "") := by
  unfold generate_app_events at h
  cases h₁ : cleanEvents n_users mS mE n_events rng ut with
  | none => rw [h₁] at h; simp only [Option.bind_eq_bind, Option.none_bind] at h; exact Option.noConfusion h
  | some p₁ =>
    obtain ⟨evs₀, rng₁, ut₁⟩ := p₁
    rw [h₁] at h
    simp only [Option.bind_eq_bind, Option.some_bind] at h
    cases h₂ : applyOrphanPass n_events n_users orphan_user_rate evs₀ rng₁ with
    | none => rw [h₂] at h; simp only [Option.bind_eq_bind, Option.none_bind] at h; exact Option.noConfusion h
    | some p₂ =>
      obtain ⟨evs₁, rng₂⟩ := p₂
      rw [h₂] at h
      simp only [Option.some_bind] at h
      cases h₃ : applyNullTypePass n_events null_event_type_rate evs₁ rng₂ with
      | none => rw [h₃] at h; simp only [Option.bind_eq_bind, Option.none_bind] at h; exact Option.noConfusion h
      | some p₃ =>
        obtain ⟨evs₂, rng₃⟩ := p₃
        rw [h₃] at h
        simp only [Option.some_bind] at h
        cases h₄ : applyOowPass n_events mS mE out_of_window_rate evs₂ rng₃ with
        | none => rw [h₄] at h; simp only [Option.bind_eq_bind, Option.none_bind] at h; exact Option.noConfusion h
        | some p₄ =>
          obtain ⟨evs₃, rng₄⟩ := p₄
          rw [h₄] at h
          simp only [Option.some_bind, Option.some.injEq, Prod.mk.injEq] at h
          obtain ⟨rfl, -, -⟩ := h
          have P0 := cleanEvents_button h₁
          have P1 := applyOrphanPass_preserves (fun e v pe => pe) h₂ P0
          have P2 := applyNullTypePass_preserves
            (fun e pe => ⟨fun hcl => by simp at hcl, fun _ => Or.inr rfl⟩) h₃ P1
          exact applyOowPass_preserves (fun e v pe => pe) h₄ P2

/-- **C7, witness** for the amended theorem on a concrete one-event run. -/
theorem C7_button_invariant_witness :
    generate_app_events 1 1 0 2678400 (1/100) (5/1000) (1/100)
        [0, 2, 0, 0, 0, 0, 0, 0, 0, 0, 0, 0, 0, 0, 0, 0, 0] [0, 1]
      = some ([⟨"uuid-1", 2, "", -432000, "uuid-0", "/home", "send_now",
                "android", "Android 14", "1.0.0.0"⟩], [], []) ∧
    ∀ e ∈ [(⟨"uuid-1", 2, "", -432000, "uuid-0", "/home", "send_now",
            "android", "Android 14", "1.0.0.0"⟩ : PEvent)],
      (e.event_type = "button_click" → e.button_id ≠ "") ∧
        (e.button_id ≠ "" → e.event_type = "button_click" ∨ e.event_type = "") :=
  ⟨rfl,
   C7_button_invariant 1 1 0 2678400 (1/100) (5/1000) (1/100)
     [0, 2, 0, 0, 0, 0, 0, 0, 0, 0, 0, 0, 0, 0, 0, 0, 0] [0, 1] [] []
     [⟨"uuid-1", 2, "", -432000, "uuid-0", "/home", "send_now",
       "android", "Android 14", "1.0.0.0"⟩] rfl⟩

/-! ## Claim C9: the orphan-identity pass -/

theorem get?_setAt_none {l : List α} {i : Nat} (f : α → α) (h : l.get? i = none) :
    (setAt l i f).get? i = none := by
  rw [List.get?_eq_none] at h ⊢
  rw [length_setAt]
  exact h

theorem get?_setAt_map (l : List α) (i j : Nat) (f : α → α) (g : α → β)
    (hf : ∀ a, g (f a) = g a) :
    ((setAt l i f).get? j).map g = (l.get? j).map g := by
  by_cases hij : i = j
  · subst hij
    cases hg : l.get? i with
    | none =>
      have h1 : (setAt l i f).get? i = none := get?_setAt_none f hg
      rw [h1]
    | some a =>
      have h1 : (setAt l i f).get? i = some (f a) := get?_setAt_self f hg
      rw [h1]
      show some (g (f a)) = some (g a)
      rw [hf]
  · rw [get?_setAt_of_ne l f hij]

theorem orphanFold_get?_not_mem {n_users : Nat} {events out : List PEvent}
    {idxs : List Nat} {rng rng' : Tape} {i : Nat}
    (hni : i ∉ idxs) (h : orphanFold n_users events idxs rng = some (out, rng')) :
    out.get? i = events.get? i := by
  induction idxs generalizing events rng with
  | nil =>
    simp only [orphanFold, Option.some.injEq, Prod.mk.injEq] at h
    rw [← h.1]
  | cons j rest ih =>
    simp only [orphanFold] at h
    cases h₁ : randint 1 50 rng with
    | none => rw [h₁] at h; simp only [Option.bind_eq_bind, Option.none_bind] at h; exact Option.noConfusion h
    | some p =>
      obtain ⟨k, rng₁⟩ := p
      rw [h₁] at h
      simp only [Option.bind_eq_bind, Option.some_bind] at h
      have hij : i ∉ rest := fun hc => hni (List.mem_cons_of_mem j hc)
      have hji : j ≠ i := fun hc => hni (hc ▸ List.mem_cons_self j rest)
      rw [ih hij h]
      exact get?_setAt_of_ne events _ hji

theorem orphanFold_at {n_users : Nat} {events out : List PEvent} {idxs : List Nat}
    {rng rng' : Tape}
    (hnd : idxs.Nodup) (hlt : ∀ j ∈ idxs, j < events.length)
    (h : orphanFold n_users events idxs rng = some (out, rng')) :
    ∀ i ∈ idxs, ∃ e k, out.get? i = some e ∧ 1 ≤ k ∧ k ≤ 50 ∧
      e.user_id = n_users + k := by
  induction idxs generalizing events rng with
  | nil => simp
  | cons j rest ih =>
    simp only [orphanFold] at h
    cases h₁ : randint 1 50 rng with
    | none => rw [h₁] at h; simp only [Option.bind_eq_bind, Option.none_bind] at h; exact Option.noConfusion h
    | some p =>
      obtain ⟨k, rng₁⟩ := p
      rw [h₁] at h
      simp only [Option.bind_eq_bind, Option.some_bind] at h
      intro i hi
      rcases List.mem_cons.mp hi with rfl | hi
      · have hjr : i ∉ rest := (List.nodup_cons.mp hnd).1
        have hout : out.get? i
            = (setAt events i (fun e => { e with user_id := n_users + k })).get? i :=
          orphanFold_get?_not_mem hjr h
        cases hg : events.get? i with
        | none =>
          rw [List.get?_eq_none] at hg
          have := hlt i (List.mem_cons_self i rest)
          omega
        | some a =>
          obtain ⟨hk1, hk2⟩ := randint_bounds h₁
          exact ⟨{ a with user_id := n_users + k }, k,
            by rw [hout, get?_setAt_self _ hg], hk1, hk2, rfl⟩
      · refine ih (List.nodup_cons.mp hnd).2 (fun x hx => ?_) h i hi
        rw [length_setAt]
        exact hlt x (List.mem_cons_of_mem j hx)

theorem nullTypeFold_user (events : List PEvent) (idxs : List Nat) (i : Nat) :
    ((nullTypeFold events idxs).get? i).map PEvent.user_id
      = (events.get? i).map PEvent.user_id := by
  induction idxs generalizing events with
  | nil => rfl
  | cons j rest ih =>
    simp only [nullTypeFold]
    rw [ih, get?_setAt_map events j i
      (fun e => { e with event_type := "" }) PEvent.user_id (fun a => rfl)]

theorem oowFold_user {mS mE : Int} {events out : List PEvent} {idxs : List Nat}
    {rng rng' : Tape}
    (h : oowFold mS mE events idxs rng = some (out, rng')) (i : Nat) :
    (out.get? i).map PEvent.user_id = (events.get? i).map PEvent.user_id := by
  induction idxs generalizing events rng with
  | nil =>
    simp only [oowFold, Option.some.injEq, Prod.mk.injEq] at h
    rw [← h.1]
  | cons j rest ih =>
    simp only [oowFold] at h
    cases h₁ : randFloat rng with
    | none => rw [h₁] at h; simp only [Option.bind_eq_bind, Option.none_bind] at h; exact Option.noConfusion h
    | some p =>
      obtain ⟨c, rng₁⟩ := p
      rw [h₁] at h
      simp only [Option.bind_eq_bind, Option.some_bind] at h
      split at h
      · cases h₂ : rand_dt (mS - 5 * 86400) mS rng₁ with
        | none => rw [h₂] at h; simp only [Option.bind_eq_bind, Option.none_bind] at h; exact Option.noConfusion h
        | some p₂ =>
          obtain ⟨ts, rng₂⟩ := p₂
          rw [h₂] at h
          simp only [Option.some_bind] at h
          rw [ih h, get?_setAt_map events j i
            (fun e => { e with event_ts := ts }) PEvent.user_id (fun a => rfl)]
      · cases h₂ : rand_dt mE (mE + 5 * 86400) rng₁ with
        | none => rw [h₂] at h; simp only [Option.bind_eq_bind, Option.none_bind] at h; exact Option.noConfusion h
        | some p₂ =>
          obtain ⟨ts, rng₂⟩ := p₂
          rw [h₂] at h
          simp only [Option.some_bind] at h
          rw [ih h, get?_setAt_map events j i
            (fun e => { e with event_ts := ts }) PEvent.user_id (fun a => rfl)]

theorem applyNullTypePass_user {n_events : Nat} {rate : PQ}
    {events out : List PEvent} {rng rng' : Tape}
    (h : applyNullTypePass n_events rate events rng = some (out, rng')) (i : Nat) :
    (out.get? i).map PEvent.user_id = (events.get? i).map PEvent.user_id := by
  unfold applyNullTypePass at h
  dsimp only at h
  cases hs : pysample (List.range n_events)
      (min (max 1 (intFloorNat ((n_events : PQ) * rate))) n_events) rng with
  | none => rw [hs] at h; simp only [Option.bind_eq_bind, Option.none_bind] at h; exact Option.noConfusion h
  | some p =>
    obtain ⟨idxs, rng₁⟩ := p
    rw [hs] at h
    simp only [Option.bind_eq_bind, Option.some_bind, Option.some.injEq,
      Prod.mk.injEq] at h
    obtain ⟨rfl, -⟩ := h
    exact nullTypeFold_user events idxs i

theorem applyOowPass_user {n_events : Nat} {mS mE : Int} {rate : PQ}
    {events out : List PEvent} {rng rng' : Tape}
    (h : applyOowPass n_events mS mE rate events rng = some (out, rng')) (i : Nat) :
    (out.get? i).map PEvent.user_id = (events.get? i).map PEvent.user_id := by
  unfold applyOowPass at h
  dsimp only at h
  cases hs : pysample (List.range n_events)
      (min (max 1 (intFloorNat ((n_events : PQ) * rate))) n_events) rng with
  | none => rw [hs] at h; simp only [Option.bind_eq_bind, Option.none_bind] at h; exact Option.noConfusion h
  | some p =>
    obtain ⟨idxs, rng₁⟩ := p
    rw [hs] at h
    simp only [Option.bind_eq_bind, Option.some_bind] at h
    exact oowFold_user h i

/-- **C9, confirmed.**  Every event row targeted by the orphan-identity pass
ends the run with `user_id = n_users + k` for an offset `k ∈ 1..50`, hence
strictly above every valid user id `1..n_users` (the later passes do not
touch `user_id`), and the Auditor counts it as an orphan reference. -/
theorem C9_orphan_targets (n_events n_users : Nat) (mS mE : Int)
    (orphan_user_rate null_event_type_rate out_of_window_rate : PQ)
    (evs evs₁ evs₂ evs₃ : List PEvent) (idxs : List Nat)
    (rng rng₁ rng₂ rng₃ rng₄ : Tape) (i : Nat)
    (hlen : evs.length = n_events)
    (hs : pysample (List.range n_events)
        (min (max 1 (intFloorNat ((n_events : PQ) * orphan_user_rate))) n_events) rng
        = some (idxs, rng₁))
    (ho : orphanFold n_users evs idxs rng₁ = some (evs₁, rng₂))
    (hnt : applyNullTypePass n_events null_event_type_rate evs₁ rng₂ = some (evs₂, rng₃))
    (how : applyOowPass n_events mS mE out_of_window_rate evs₂ rng₃ = some (evs₃, rng₄))
    (hi : i ∈ idxs) :
    ∃ e k, evs₃.get? i = some e ∧ 1 ≤ k ∧ k ≤ 50 ∧ e.user_id = n_users + k ∧
      (∀ u, 1 ≤ u → u ≤ n_users → u < e.user_id) ∧
      isOrphanEvent n_users e = true := by
  have hnd : idxs.Nodup := pysample_nodup (List.nodup_range _) hs
  have hmem : ∀ j ∈ idxs, j < evs.length := by
    intro j hj
    have := pysample_mem hs j hj
    rw [List.mem_range] at this
    omega
  obtain ⟨e, k, hge, hk1, hk2, hu⟩ := orphanFold_at hnd hmem ho i hi
  have h2 := applyNullTypePass_user hnt i
  have h3 := applyOowPass_user how i
  rw [hge] at h2
  rw [h2] at h3
  cases hg3 : evs₃.get? i with
  | none => rw [hg3] at h3; simp at h3
  | some e3 =>
    rw [hg3] at h3
    have h4 : e3.user_id = e.user_id := Option.some.inj h3
    refine ⟨e3, k, rfl, hk1, hk2, by omega, by omega, ?_⟩
    simp only [isOrphanEvent, decide_eq_true_eq]
    omega

/-- **C9, witness** on a concrete one-event run where the pass rewrites
row 0's `user_id` to `2 > n_users = 1`. -/
theorem C9_orphan_targets_witness :
    pysample (List.range 1) (min (max 1 (intFloorNat ((1 : PQ) * (1/100)))) 1)
        [0, 0, 0, 0, 0, 0] = some ([0], [0, 0, 0, 0, 0]) ∧
    orphanFold 1 [⟨"uuid-1", 1, "button_click", 0, "uuid-0", "/home", "send_now",
        "android", "Android 14", "1.0.0.0"⟩] [0] [0, 0, 0, 0, 0]
      = some ([⟨"uuid-1", 2, "button_click", 0, "uuid-0", "/home", "send_now",
          "android", "Android 14", "1.0.0.0"⟩], [0, 0, 0, 0]) ∧
    applyNullTypePass 1 (5/1000) [⟨"uuid-1", 2, "button_click", 0, "uuid-0", "/home",
        "send_now", "android", "Android 14", "1.0.0.0"⟩] [0, 0, 0, 0]
      = some ([⟨"uuid-1", 2, "", 0, "uuid-0", "/home", "send_now",
          "android", "Android 14", "1.0.0.0"⟩], [0, 0, 0]) ∧
    applyOowPass 1 0 2678400 (1/100) [⟨"uuid-1", 2, "", 0, "uuid-0", "/home",
        "send_now", "android", "Android 14", "1.0.0.0"⟩] [0, 0, 0]
      = some ([⟨"uuid-1", 2, "", -432000, "uuid-0", "/home", "send_now",
          "android", "Android 14", "1.0.0.0"⟩], []) ∧
    ∃ e k, ([(⟨"uuid-1", 2, "", -432000, "uuid-0", "/home", "send_now",
        "android", "Android 14", "1.0.0.0"⟩ : PEvent)]).get? 0 = some e ∧
      1 ≤ k ∧ k ≤ 50 ∧ e.user_id = 1 + k ∧
      (∀ u, 1 ≤ u → u ≤ 1 → u < e.user_id) ∧ isOrphanEvent 1 e = true :=
  ⟨rfl, rfl, rfl, rfl,
   C9_orphan_targets 1 1 0 2678400 (1/100) (5/1000) (1/100)
     [⟨"uuid-1", 1, "button_click", 0, "uuid-0", "/home", "send_now",
       "android", "Android 14", "1.0.0.0"⟩]
     [⟨"uuid-1", 2, "button_click", 0, "uuid-0", "/home", "send_now",
       "android", "Android 14", "1.0.0.0"⟩]
     [⟨"uuid-1", 2, "", 0, "uuid-0", "/home", "send_now",
       "android", "Android 14", "1.0.0.0"⟩]
     [⟨"uuid-1", 2, "", -432000, "uuid-0", "/home", "send_now",
       "android", "Android 14", "1.0.0.0"⟩]
     [0] [0, 0, 0, 0, 0, 0] [0, 0, 0, 0, 0] [0, 0, 0, 0] [0, 0, 0] [] 0
     rfl rfl rfl rfl rfl (by decide)⟩

/-! ## Claim C8: the Auditor's duplicate-rows total -/

theorem temporalStep_id_nonnull {metas : List UserMeta} {mS : Int} {eligible : List Nat}
    {txns out : List PTxn} {i : Nat} {rng rng' : Tape}
    (h : temporalStep metas mS eligible txns i rng = some (out, rng'))
    (he : ∀ t ∈ txns, pyIsNullStr t.transaction_id = false) :
    ∀ t ∈ out, pyIsNullStr t.transaction_id = false := by
  unfold temporalStep at h
  cases eligible with
  | nil =>
    simp only [Option.some.injEq, Prod.mk.injEq] at h
    obtain ⟨rfl, -⟩ := h
    exact he
  | cons a as =>
    cases h₁ : pychoice (a :: as) rng with
    | none => rw [h₁] at h; simp only [Option.bind_eq_bind, Option.none_bind] at h; exact Option.noConfusion h
    | some p₁ =>
      obtain ⟨bad, r₁⟩ := p₁
      rw [h₁] at h
      simp only [Option.bind_eq_bind, Option.some_bind] at h
      cases h₂ : randFloat r₁ with
      | none => rw [h₂] at h; simp only [Option.bind_eq_bind, Option.none_bind] at h; exact Option.noConfusion h
      | some p₂ =>
        obtain ⟨c, r₂⟩ := p₂
        rw [h₂] at h
        simp only [Option.some_bind] at h
        cases hsig : (mget metas bad).signup_dt with
        | none => rw [hsig] at h; exact Option.noConfusion h
        | some s =>
          rw [hsig] at h
          dsimp only at h
          cases h₃ : rand_dt mS (max (mS + 3600) (s - 60)) r₂ with
          | none => rw [h₃] at h; simp only [Option.bind_eq_bind, Option.none_bind] at h; exact Option.noConfusion h
          | some p₃ =>
            obtain ⟨ts, r₃⟩ := p₃
            rw [h₃] at h
            simp only [Option.some_bind, Option.some.injEq, Prod.mk.injEq] at h
            obtain ⟨rfl, -⟩ := h
            refine setAt_forall ?_ (fun a pa => pa)
            by_cases hc : c < 1/2
            · rw [if_pos hc]
              exact setAt_forall he (fun a pa => pa)
            · rw [if_neg hc]
              exact setAt_forall he (fun a pa => pa)

theorem temporalFold_id_nonnull {metas : List UserMeta} {mS : Int} {eligible : List Nat}
    {txns out : List PTxn} {idxs : List Nat} {rng rng' : Tape}
    (h : temporalFold metas mS eligible txns idxs rng = some (out, rng'))
    (he : ∀ t ∈ txns, pyIsNullStr t.transaction_id = false) :
    ∀ t ∈ out, pyIsNullStr t.transaction_id = false := by
  induction idxs generalizing txns rng with
  | nil =>
    simp only [temporalFold, Option.some.injEq, Prod.mk.injEq] at h
    obtain ⟨rfl, -⟩ := h
    exact he
  | cons i rest ih =>
    simp only [temporalFold] at h
    cases h₁ : temporalStep metas mS eligible txns i rng with
    | none => rw [h₁] at h; simp only [Option.bind_eq_bind, Option.none_bind] at h; exact Option.noConfusion h
    | some p =>
      obtain ⟨txns₁, rng₁⟩ := p
      rw [h₁] at h
      simp only [Option.bind_eq_bind, Option.some_bind] at h
      exact ih h (temporalStep_id_nonnull h₁ he)

theorem applyTemporalPass_id_nonnull {n_txns n_users : Nat} {mS : Int}
    {metas : List UserMeta} {rate : PQ} {txns out : List PTxn} {rng rng' : Tape}
    (h : applyTemporalPass n_txns n_users mS metas rate txns rng = some (out, rng'))
    (he : ∀ t ∈ txns, pyIsNullStr t.transaction_id = false) :
    ∀ t ∈ out, pyIsNullStr t.transaction_id = false := by
  unfold applyTemporalPass at h
  dsimp only at h
  cases hs : pysample (List.range n_txns)
      (min (max 1 (intFloorNat ((n_txns : PQ) * rate))) n_txns) rng with
  | none => rw [hs] at h; simp only [Option.bind_eq_bind, Option.none_bind] at h; exact Option.noConfusion h
  | some p =>
    obtain ⟨idxs, rng₁⟩ := p
    rw [hs] at h
    simp only [Option.bind_eq_bind, Option.some_bind] at h
    exact temporalFold_id_nonnull h he

theorem amountFold_id_nonnull {txns : List PTxn} {idxs : List Nat}
    (he : ∀ t ∈ txns, pyIsNullStr t.transaction_id = false) :
    ∀ t ∈ amountFold txns idxs, pyIsNullStr t.transaction_id = false := by
  induction idxs generalizing txns with
  | nil => exact he
  | cons i rest ih => exact ih (setAt_forall he (fun a pa => pa))

theorem applyAmountPass_id_nonnull {n_txns : Nat} {rate : PQ} {txns out : List PTxn}
    {rng rng' : Tape}
    (h : applyAmountPass n_txns rate txns rng = some (out, rng'))
    (he : ∀ t ∈ txns, pyIsNullStr t.transaction_id = false) :
    ∀ t ∈ out, pyIsNullStr t.transaction_id = false := by
  unfold applyAmountPass at h
  dsimp only at h
  cases hs : pysample (List.range n_txns)
      (min (max 1 (intFloorNat ((n_txns : PQ) * rate))) n_txns) rng with
  | none => rw [hs] at h; simp only [Option.bind_eq_bind, Option.none_bind] at h; exact Option.noConfusion h
  | some p =>
    obtain ⟨idxs, rng₁⟩ := p
    rw [hs] at h
    simp only [Option.bind_eq_bind, Option.some_bind, Option.some.injEq,
      Prod.mk.injEq] at h
    obtain ⟨rfl, -⟩ := h
    exact amountFold_id_nonnull he

theorem dupFold_id_nonnull {txns out : List PTxn} {targets : List Nat} {rng rng' : Tape}
    (h : dupFold txns targets rng = some (out, rng'))
    (he : ∀ t ∈ txns, pyIsNullStr t.transaction_id = false) :
    ∀ t ∈ out, pyIsNullStr t.transaction_id = false := by
  induction targets generalizing txns rng with
  | nil =>
    simp only [dupFold, Option.some.injEq, Prod.mk.injEq] at h
    obtain ⟨rfl, -⟩ := h
    exact he
  | cons i rest ih =>
    simp only [dupFold] at h
    cases h₁ : dupStep txns i rng with
    | none => rw [h₁] at h; simp only [Option.bind_eq_bind, Option.none_bind] at h; exact Option.noConfusion h
    | some p =>
      obtain ⟨txns₁, rng₁⟩ := p
      rw [h₁] at h
      simp only [Option.bind_eq_bind, Option.some_bind] at h
      obtain ⟨j, src, hj, hg, rfl⟩ := dupStep_spec h₁
      have hsrc := he src (List.get?_mem hg)
      exact ih h (setAt_forall he (fun a _ => hsrc))

theorem applyDupPass_id_nonnull {n_txns : Nat} {rate : PQ} {txns out : List PTxn}
    {rng rng' : Tape}
    (h : applyDupPass n_txns rate txns rng = some (out, rng'))
    (he : ∀ t ∈ txns, pyIsNullStr t.transaction_id = false) :
    ∀ t ∈ out, pyIsNullStr t.transaction_id = false := by
  unfold applyDupPass at h
  split at h
  · cases hs : pysample (List.range' 1 (n_txns - 1)) (dupTargetCount n_txns rate) rng with
    | none => rw [hs] at h; simp only [Option.bind_eq_bind, Option.none_bind] at h; exact Option.noConfusion h
    | some p =>
      obtain ⟨targets, rng₁⟩ := p
      rw [hs] at h
      simp only [Option.bind_eq_bind, Option.some_bind] at h
      exact dupFold_id_nonnull h he
  · simp only [Option.some.injEq, Prod.mk.injEq] at h
    obtain ⟨rfl, -⟩ := h
    exact he

/-- When every id is non-blank, the auditor's filter keeps every row, and
its total coincides with the spec-side recomputation over all ids. -/
theorem txn_dup_rows_eq {txns : List PTxn}
    (hnn : ∀ t ∈ txns, pyIsNullStr t.transaction_id = false) :
    txn_dup_rows_total txns = specDupRowsTotal txns := by
  have hfil : txns.filter (fun t => ! pyIsNullStr t.transaction_id) = txns :=
    List.filter_eq_self.mpr (fun t ht => by simp [hnn t ht])
  unfold txn_dup_rows_total dupIdsOf txnIdsOf specDupRowsTotal
  rw [hfil]

/-- **C8, confirmed.**  For every successful run of
`generate_transactions`, the Auditor's `transactions_duplicate_rows_total`
equals the sum, over all `transaction_id` values occurring more than once in
the final records, of their occurrence counts: every final id is a
non-blank uuid (possibly copied), so the auditor's null filter drops
nothing, and both computations coincide on the final records alone. -/
theorem C8_dup_rows_total (n_txns n_users : Nat) (mS mE : Int) (metas : List UserMeta)
    (before_signup_rate dup_id_rate null_amount_rate : PQ)
    (rng ut rng' ut' : Tape) (out : List PTxn)
    (h : generate_transactions n_txns n_users mS mE metas before_signup_rate
        dup_id_rate null_amount_rate rng ut = some (out, rng', ut')) :
    txn_dup_rows_total out = specDupRowsTotal out := by
  unfold generate_transactions at h
  dsimp only at h
  cases h₁ : cleanTxns metas n_users mS mE (featureUsersOf metas n_users)
      (windowDays mS mE) (dayProbsOf (windowDays mS mE)) n_txns rng ut with
  | none => rw [h₁] at h; simp only [Option.bind_eq_bind, Option.none_bind] at h; exact Option.noConfusion h
  | some p₁ =>
    obtain ⟨txns₀, rng₁, ut₁⟩ := p₁
    rw [h₁] at h
    simp only [Option.bind_eq_bind, Option.some_bind] at h
    cases h₂ : applyTemporalPass n_txns n_users mS metas before_signup_rate txns₀ rng₁ with
    | none => rw [h₂] at h; simp only [Option.bind_eq_bind, Option.none_bind] at h; exact Option.noConfusion h
    | some p₂ =>
      obtain ⟨txns₁, rng₂⟩ := p₂
      rw [h₂] at h
      simp only [Option.some_bind] at h
      cases h₃ : applyAmountPass n_txns null_amount_rate txns₁ rng₂ with
      | none => rw [h₃] at h; simp only [Option.bind_eq_bind, Option.none_bind] at h; exact Option.noConfusion h
      | some p₃ =>
        obtain ⟨txns₂, rng₃⟩ := p₃
        rw [h₃] at h
        simp only [Option.some_bind] at h
        cases h₄ : applyDupPass n_txns dup_id_rate txns₂ rng₃ with
        | none => rw [h₄] at h; simp only [Option.bind_eq_bind, Option.none_bind] at h; exact Option.noConfusion h
        | some p₄ =>
          obtain ⟨txns₃, rng₄⟩ := p₄
          rw [h₄] at h
          simp only [Option.some_bind, Option.some.injEq, Prod.mk.injEq] at h
          obtain ⟨rfl, -, -⟩ := h
          have P0 : ∀ t ∈ txns₀, pyIsNullStr t.transaction_id = false :=
            fun t ht => (cleanTxns_sound h₁ t ht).2.2.2
          have P1 := applyTemporalPass_id_nonnull h₂ P0
          have P2 := applyAmountPass_id_nonnull h₃ P1
          have P3 := applyDupPass_id_nonnull h₄ P2
          exact txn_dup_rows_eq P3

/-- **C8, witness** on a concrete three-transaction run in which the
duplicate pass copies row 0's id onto row 1: both totals are 2. -/
theorem C8_dup_rows_total_witness :
    generate_transactions 3 2 0 2678400 [⟨some 0, "PT", true⟩, ⟨some 345600, "PT", true⟩]
        (1/100) (1/100) (1/100) (List.replicate 40 0) [0, 1, 2]
      = some ([⟨"uuid-0", 2, 2, none, "BTC", "completed", 0⟩,
               ⟨"uuid-0", 1, 2, some ⟨100, 100⟩, "BTC", "completed", 345600⟩,
               ⟨"uuid-2", 1, 2, some ⟨100, 100⟩, "BTC", "completed", 345600⟩],
              [0, 0, 0, 0, 0, 0], []) ∧
    txn_dup_rows_total
        [⟨"uuid-0", 2, 2, none, "BTC", "completed", 0⟩,
         ⟨"uuid-0", 1, 2, some ⟨100, 100⟩, "BTC", "completed", 345600⟩,
         ⟨"uuid-2", 1, 2, some ⟨100, 100⟩, "BTC", "completed", 345600⟩]
      = specDupRowsTotal
        [⟨"uuid-0", 2, 2, none, "BTC", "completed", 0⟩,
         ⟨"uuid-0", 1, 2, some ⟨100, 100⟩, "BTC", "completed", 345600⟩,
         ⟨"uuid-2", 1, 2, some ⟨100, 100⟩, "BTC", "completed", 345600⟩] :=
  by
  have h : generate_transactions 3 2 0 2678400
      [⟨some 0, "PT", true⟩, ⟨some 345600, "PT", true⟩]
      (1/100) (1/100) (1/100) (List.replicate 40 0) [0, 1, 2]
    = some ([⟨"uuid-0", 2, 2, none, "BTC", "completed", 0⟩,
             ⟨"uuid-0", 1, 2, some ⟨100, 100⟩, "BTC", "completed", 345600⟩,
             ⟨"uuid-2", 1, 2, some ⟨100, 100⟩, "BTC", "completed", 345600⟩],
            [0, 0, 0, 0, 0, 0], []) := rfl
  exact ⟨h, C8_dup_rows_total 3 2 0 2678400 [⟨some 0, "PT", true⟩, ⟨some 345600, "PT", true⟩]
     (1/100) (1/100) (1/100) (List.replicate 40 0) [0, 1, 2] [0, 0, 0, 0, 0, 0] []
     [⟨"uuid-0", 2, 2, none, "BTC", "completed", 0⟩,
      ⟨"uuid-0", 1, 2, some ⟨100, 100⟩, "BTC", "completed", 345600⟩,
      ⟨"uuid-2", 1, 2, some ⟨100, 100⟩, "BTC", "completed", 345600⟩] h⟩

end P2PSim
